import Mathlib

/-!
# Verification of the Audio2Face blendshape driver

A shallow embedding, in Lean 4, of the synchronization engine of the
`createAudio2FaceBlendshapeDriver` module (audio normalization, response
normalization, frame queueing, clock-anchored playback scheduling, and the
single-flight drain machinery), together with proofs and refutations of the
specified properties.

Modelling conventions:
* JS numbers that the source guards with `Number.isFinite` are modelled as
  `Option ℚ` (`none` = non-finite) at the points where the guard matters and as
  plain `ℚ` after the guard;
* JS strings are Lean `String`s, processed through their `List Char` data;
  `toLowerCase`/`toUpperCase` are modelled with the ASCII `Char.toLower` /
  `Char.toUpper` (every string the canonical table can produce is ASCII);
* a JS `Map` is an insertion-ordered association list, `Map.set` updates an
  existing key in place, `Map.delete` removes it;
* `Array.prototype.sort` with comparator `(a, b) => key a - key b` is the
  stable sort by `key` (ES2019 stability), modelled by `jsSortBy`;
* logging, debug counters and callback invocations are omitted: they never
  feed back into the engine state.
-/

/-! ## JS string primitives -/

/-- The character class of the JS regex `\s` (also the set trimmed by
`String.prototype.trim`): ASCII whitespace plus the Unicode space separators,
the line separators and the BOM, by code point. -/
def jsIsWs (c : Char) : Bool :=
  c.toNat = 0x20 ∨ c.toNat = 0x09 ∨ c.toNat = 0x0a ∨ c.toNat = 0x0d ∨
  c.toNat = 0x0b ∨ c.toNat = 0x0c ∨ c.toNat = 0xa0 ∨ c.toNat = 0x1680 ∨
  (0x2000 ≤ c.toNat ∧ c.toNat ≤ 0x200a) ∨ c.toNat = 0x2028 ∨
  c.toNat = 0x2029 ∨ c.toNat = 0x202f ∨ c.toNat = 0x205f ∨
  c.toNat = 0x3000 ∨ c.toNat = 0xfeff

/-- `String.prototype.trim`. -/
def jsTrim (s : List Char) : List Char :=
  ((s.dropWhile jsIsWs).reverse.dropWhile jsIsWs).reverse

/-- The character class `[A-Za-z0-9]` (the JS regexes involved only ever use
the ASCII ranges), by code point. -/
def isAsciiAlnum (c : Char) : Bool :=
  (65 ≤ c.toNat ∧ c.toNat ≤ 90) ∨ (97 ≤ c.toNat ∧ c.toNat ≤ 122) ∨
  (48 ≤ c.toNat ∧ c.toNat ≤ 57)

/-- The character class `[a-z0-9]` (used by `getBlendshapeDedupeKey` after
lowercasing). -/
def isLowerAlnum (c : Char) : Bool :=
  (97 ≤ c.toNat ∧ c.toNat ≤ 122) ∨ (48 ≤ c.toNat ∧ c.toNat ≤ 57)

/-- `.replace(/[^A-Za-z0-9]+/g, '')`. -/
def stripNonAlnum (s : List Char) : List Char := s.filter isAsciiAlnum

/-- `.toLowerCase()` (ASCII). -/
def lowerAll (s : List Char) : List Char := s.map Char.toLower

/-- The separator class `[-_\s]` of the camel-casing regexes
(`0x2d` = `-`, `0x5f` = `_`). -/
def isSepChar (c : Char) : Bool := c.toNat = 45 ∨ c.toNat = 95 ∨ jsIsWs c

mutual

/-- `.replace(/[-_\s]+(.)?/g, (_, next) => (next ? next.toUpperCase() : ''))`:
drop each maximal run of separators and uppercase the character that follows
it (the run being maximal, that character is never a separator, hence never a
line terminator, so `(.)` always captures it). -/
def camelCollapse : List Char → List Char
  | [] => []
  | c :: cs => if isSepChar c then camelAfterSep cs else c :: camelCollapse cs

/-- State of `camelCollapse` inside a separator run. -/
def camelAfterSep : List Char → List Char
  | [] => []
  | c :: cs => if isSepChar c then camelAfterSep cs else c.toUpper :: camelCollapse cs

end

/-- `.replace(/^[a-z]/, (char) => char.toUpperCase())`. -/
def upperFirstIfLower : List Char → List Char
  | [] => []
  | c :: cs => if 97 ≤ c.toNat ∧ c.toNat ≤ 122 then c.toUpper :: cs else c :: cs

/-! ## Blendshape name canonicalization -/

/-- `BLENDSHAPE_CANONICAL_NAMES` (the closed ARKit vocabulary, verbatim). -/
def BLENDSHAPE_CANONICAL_NAMES : List String :=
  ["browDownLeft", "browDownRight", "browInnerUp", "browOuterUpLeft",
   "browOuterUpRight", "cheekPuff", "cheekSquintLeft", "cheekSquintRight",
   "eyeBlinkLeft", "eyeBlinkRight", "eyeLookDownLeft", "eyeLookDownRight",
   "eyeLookInLeft", "eyeLookInRight", "eyeLookOutLeft", "eyeLookOutRight",
   "eyeLookUpLeft", "eyeLookUpRight", "eyeSquintLeft", "eyeSquintRight",
   "eyeWideLeft", "eyeWideRight", "jawForward", "jawLeft", "jawOpen",
   "jawRight", "mouthClose", "mouthDimpleLeft", "mouthDimpleRight",
   "mouthFrownLeft", "mouthFrownRight", "mouthFunnel", "mouthLeft",
   "mouthLowerDownLeft", "mouthLowerDownRight", "mouthPressLeft",
   "mouthPressRight", "mouthPucker", "mouthRight", "mouthRollLower",
   "mouthRollUpper", "mouthShrugLower", "mouthShrugUpper", "mouthSmileLeft",
   "mouthSmileRight", "mouthStretchLeft", "mouthStretchRight",
   "mouthSuckLeft", "mouthSuckRight", "mouthUpperUpLeft", "mouthUpperUpRight",
   "noseSneerLeft", "noseSneerRight", "tongueOut"]

/-- The key under which a canonical name is stored in `BLENDSHAPE_CANON_MAP`:
`name.replace(/[^a-z0-9]/gi, '').toLowerCase()`. -/
def canonKeyOf (name : String) : List Char := lowerAll (stripNonAlnum name.data)

/-- `BLENDSHAPE_CANON_MAP.get(key)`: the map is built from
`BLENDSHAPE_CANONICAL_NAMES` with pairwise-distinct keys, so lookup is the
first (only) name whose key matches. -/
def canonMapGet (key : List Char) : Option String :=
  BLENDSHAPE_CANONICAL_NAMES.find? (fun n => canonKeyOf n == key)

/-- `canonicalizeBlendshapeName` (the input is typed as a string, so the
`typeof` guard is vacuous; `null` is `none`). -/
def canonicalizeBlendshapeName (name : String) : Option String :=
  let trimmed := jsTrim name.data
  if trimmed = [] then none
  else
    let lookupKey := lowerAll (stripNonAlnum trimmed)
    match canonMapGet lookupKey with
    | some canon => some canon
    | none =>
      let camelized := upperFirstIfLower (camelCollapse trimmed)
      let camelKey := lowerAll (stripNonAlnum camelized)
      match canonMapGet camelKey with
      | some canon => some canon
      | none => some (String.mk (if camelized = [] then trimmed else camelized))

/-- `getBlendshapeDedupeKey`:
`name.trim().toLowerCase().replace(/[^a-z0-9]+/g, '')`, `null` when the
compacted key is empty. -/
def getBlendshapeDedupeKey (name : String) : Option (List Char) :=
  let compact := (lowerAll (jsTrim name.data)).filter isLowerAlnum
  if compact = [] then none else some compact

/-! ## Blendshape alias expansion (`blendshape-utils.js`) -/

/-- Insertion-ordered deduplication: `Array.from(new Set(xs))`. -/
def jsSetDedup : List String → List String
  | [] => []
  | x :: xs => x :: (jsSetDedup xs).filter (· ≠ x)

/-- `getBlendshapeAliases` (the per-process alias cache is semantically
transparent and omitted). The regex here is `/[\s_-]+(.)?/g`, the same
separator class as `camelCollapse`. -/
def getBlendshapeAliases (name : String) : List String :=
  let trimmed := jsTrim name.data
  if trimmed = [] then []
  else
    let collapsed := camelCollapse trimmed
    let canonical := if collapsed = [] then trimmed else collapsed
    let lowerFirst :=
      match canonical with
      | [] => ([] : List Char)
      | c :: cs => Char.toLower c :: cs
    let lower := lowerAll canonical
    (jsSetDedup
      [String.mk trimmed, String.mk canonical, String.mk lowerFirst,
       String.mk lower]).filter (· ≠ "")

/-- `normalizeBlendshapeValues`, restricted to the `normalized` component (the
`original` component is never consumed by the driver). Raw values are JS
numbers, hence `Option ℚ`; entries whose value is not finite are skipped, and
each alias is only added if not already present (first occurrence wins). -/
def normalizeBlendshapeValues (source : List (String × Option ℚ)) :
    List (String × ℚ) :=
  source.foldl
    (fun normalized entry =>
      match entry.2 with
      | none => normalized
      | some v =>
        (getBlendshapeAliases entry.1).foldl
          (fun acc al =>
            if acc.any (fun kv => kv.1 = al) then acc else acc ++ [(al, v)])
          normalized)
    []

/-! ## Scheduler constants -/

def PCM16_TARGET_SAMPLE_RATE : ℚ := 16000
def DEFAULT_FRAME_DELTA_SEC : ℚ := 1/30
def FRAME_MIN_SPACING_SEC : ℚ := DEFAULT_FRAME_DELTA_SEC
def FRAME_EARLY_TOLERANCE_SEC : ℚ := 5/1000
def FRAME_LATE_DROP_SEC : ℚ := 1/10

/-- `clamp01` (its callers only reach it with finite numbers in the paths
modelled here; non-finite inputs are filtered one step earlier). -/
def clamp01 (v : ℚ) : ℚ := min 1 (max 0 v)

/-! ## JS `Map` as an insertion-ordered association list -/

def jsMapGet {κ ν : Type} [DecidableEq κ] (m : List (κ × ν)) (k : κ) : Option ν :=
  (m.find? fun kv => kv.1 = k).map (·.2)

/-- `Map.set`: update an existing key in place, else append. -/
def jsMapSet {κ ν : Type} [DecidableEq κ] (m : List (κ × ν)) (k : κ) (v : ν) :
    List (κ × ν) :=
  match m with
  | [] => [(k, v)]
  | kv :: rest => if kv.1 = k then (k, v) :: rest else kv :: jsMapSet rest k v

/-- `Map.delete` (keys are unique by construction). -/
def jsMapDelete {κ ν : Type} [DecidableEq κ] (m : List (κ × ν)) (k : κ) :
    List (κ × ν) :=
  m.filter fun kv => kv.1 ≠ k

/-- `cloneBlendshapeMap`: copy, keeping only entries with a finite positive
weight. -/
def cloneBlendshapeMap (m : List (String × ℚ)) : List (String × ℚ) :=
  m.filter fun kv => 0 < kv.2

/-! ## Stable sort (`Array.prototype.sort` with comparator `key a - key b`) -/

/-- Insert after every element whose key is `≤` the new key: the new element
came later in the input, so it lands after its ties (stability). -/
def stableInsert {α : Type} (key : α → ℚ) (x : α) : List α → List α
  | [] => [x]
  | y :: ys => if key y ≤ key x then y :: stableInsert key x ys else x :: y :: ys

def jsSortBy {α : Type} (key : α → ℚ) (l : List α) : List α :=
  l.foldl (fun acc x => stableInsert key x acc) []

/-! ## Frames and sessions -/

/-- One raw frame of a generation-service response, after JSON field
extraction: `time` is `Number(frame?.timeCode ?? timecode ?? time_code ??
time ?? timestamp)` (`none` = non-finite), `blendShapes` the raw weight
object (`Option ℚ` values: `none` = non-finite `Number(value)`). -/
structure RawFrame where
  time : Option ℚ
  blendShapes : List (String × Option ℚ)

/-- One entry of the `prepared` array (`rawTimeCode` and `timeCode` are
assigned identically in the source, so a single field carries both; the
`blendShapes` have been through `normalizeBlendshapeValues`). -/
structure Prepared where
  index : ℕ
  timeCode : Option ℚ
  blendShapes : List (String × ℚ)

/-- A normalized frame: absolute session time, batch-local time, and the
canonicalized weight map. -/
structure NFrame where
  time : ℚ
  localTime : ℚ
  values : List (String × ℚ)

/-- A queued playback frame. -/
structure QFrame where
  time : ℚ
  values : List (String × ℚ)
  playAt : Option ℚ

/-- A playback anchor: both components are finite by construction
(`setPlaybackAnchor` guards `audioStartSec` with `Number.isFinite` and
defaults a non-finite `frameStartSec` to 0). -/
structure Anchor where
  audio0 : ℚ
  a2f0 : ℚ

/-- The value-relevant fields of a driver session. Omitted source fields are
either audio-backlog state modelled separately by the drain state machine
(`chunks`, `floatChunks`, `pending`, `lastDrain*`) or logging/debug-only
(`debug`, `logged*`, `lastLateDropLog`, `thinHorizon*`, `timelineStart`,
`wallTimelineStart`, `audioClockOffset`, `lastKnownAudioTime`,
`lastAnimTimeSec`, `idleDrainSince`, `startedAt`, `lastChunkAt`). -/
structure Session where
  frames : Option (List NFrame)
  frameQueue : List QFrame
  currentValues : List (String × ℚ)
  framesCoveredSec : ℚ
  lastFrameTime : ℚ
  lastEmitAudioTime : Option ℚ   -- `none` models the initial `-Infinity`
  lastSampleTimeSec : ℚ
  anchor : Option Anchor
  lateDropsTotal : ℕ
  audioCompleted : Bool
  syncBiasSec : ℚ
  baseOffsetSec : Option ℚ

/-- `createSession` (restricted to the modelled fields). -/
def createSession : Session where
  frames := none
  frameQueue := []
  currentValues := []
  framesCoveredSec := 0
  lastFrameTime := 0
  lastEmitAudioTime := none
  lastSampleTimeSec := 0
  anchor := none
  lateDropsTotal := 0
  audioCompleted := false
  syncBiasSec := 0
  baseOffsetSec := none

/-! ## `applyBlendshapeFrames` -/

/-- The `prepared = frames.map(...)` stage (the `.filter(Boolean)` is vacuous:
the map always returns an object). -/
def prepareFrames (frames : List RawFrame) : List Prepared :=
  frames.enum.map fun p =>
    { index := p.1, timeCode := p.2.time,
      blendShapes := normalizeBlendshapeValues p.2.blendShapes }

/-- The sort key of `prepared.sort(...)`: `timeCode` when finite (the
`rawTimeCode` fallback is identical), else the original index. -/
def preparedSortKey (e : Prepared) : ℚ :=
  match e.timeCode with
  | some t => t
  | none => (e.index : ℚ)

/-- The monotonic time-assignment pass. `Number(entry.timeCode)` coerces the
`null` of a missing timestamp to `0` (which is finite), so the
`lastTime + lastDelta` inference branch of the source is unreachable; ties
and regressions are bumped forward by the last observed positive delta
(falling back to `DEFAULT_FRAME_DELTA_SEC` when that delta is ≤ 1e-4). -/
def bumpTimes : List Prepared → Option ℚ → ℚ → List (Prepared × ℚ)
  | [], _, _ => []
  | e :: es, lastTime, lastDelta =>
    let t0 : ℚ := e.timeCode.getD 0
    let time : ℚ :=
      match lastTime with
      | none => t0
      | some lt =>
        if t0 ≤ lt then
          lt + (if 1/10000 < lastDelta then lastDelta else DEFAULT_FRAME_DELTA_SEC)
        else t0
    let nextDelta : ℚ :=
      match lastTime with
      | none => lastDelta
      | some lt => if 1/1000000 < time - lt then time - lt else lastDelta
    (e, time) :: bumpTimes es (some time) nextDelta

/-- The per-frame canonicalization/deduplication fold: canonicalize each raw
key, clamp the weight, and on a dedupe-key collision keep the larger weight
(ties go to the later entry). The fold state is the `values` map and the
`dedupeMap` (whose `rawName` component is only used for logging and is
dropped). -/
def normalizeFrameValues (shapes : List (String × ℚ)) : List (String × ℚ) :=
  (shapes.foldl
    (fun state nv =>
      let clamped := clamp01 nv.2
      if clamped ≤ 0 then state
      else
        match canonicalizeBlendshapeName nv.1 with
        | none => state
        | some canonicalName =>
          let key := (getBlendshapeDedupeKey canonicalName).getD
            ((getBlendshapeDedupeKey nv.1).getD (lowerAll canonicalName.data))
          if key = [] then state
          else
            match jsMapGet state.2 key with
            | some ex =>
              if clamped < ex.2 then state
              else
                (jsMapSet (jsMapDelete state.1 ex.1) canonicalName clamped,
                 jsMapSet state.2 key (canonicalName, clamped))
            | none =>
              (jsMapSet state.1 canonicalName clamped,
               jsMapSet state.2 key (canonicalName, clamped)))
    (([], []) : List (String × ℚ) × List (List Char × (String × ℚ)))).1

/-- The append-merge near-duplicate collapse (`EPSILON = 1e-4`), keeping the
later entry. -/
def collapseNearDuplicates (merged : List NFrame) : List NFrame :=
  merged.foldl
    (fun deduped frame =>
      match deduped.getLast? with
      | some last =>
        if |frame.time - last.time| ≤ 1/10000 then deduped.dropLast ++ [frame]
        else deduped ++ [frame]
      | none => [frame])
    []

/-- `applyBlendshapeFrames`. `data = none` models a missing/non-object
response body; `baseTimeSecOpt = none` a non-finite `options.baseTimeSec`. -/
def applyBlendshapeFrames (session : Session) (data : Option (List RawFrame))
    (append : Bool) (baseTimeSecOpt : Option ℚ) : Session × List NFrame :=
  match data with
  | none => (session, [])
  | some frames =>
    let defaultBase : ℚ := if append then session.framesCoveredSec else 0
    let baseTimeSec : ℚ :=
      match baseTimeSecOpt with
      | some b => max 0 b
      | none => max 0 defaultBase
    let prepared := prepareFrames frames
    if prepared.isEmpty then
      if append then (session, [])
      else
        ({session with frames := none, currentValues := [],
                       framesCoveredSec := 0, syncBiasSec := 0}, [])
    else
      let sorted := jsSortBy preparedSortKey prepared
      let timed := bumpTimes sorted none DEFAULT_FRAME_DELTA_SEC
      let normalizedFrames : List NFrame := timed.map fun et =>
        { time := baseTimeSec + et.2, localTime := et.2,
          values := normalizeFrameValues et.1.blendShapes }
      let maxLocalTime : ℚ :=
        timed.foldl (fun m et => if m < et.2 then et.2 else m) 0
      let coverageBase := max baseTimeSec session.framesCoveredSec
      let lastAbsolute : ℚ :=
        match normalizedFrames.getLast? with
        | some f => f.time
        | none => coverageBase
      let localSpan := max 0 (lastAbsolute - baseTimeSec)
      let coverageAdvance := max maxLocalTime localSpan
      let minimumAdvance :=
        if 1 < normalizedFrames.length then coverageAdvance
        else max coverageAdvance DEFAULT_FRAME_DELTA_SEC
      let newCovered := coverageBase + minimumAdvance
      let inAppendMerge :=
        append && (match session.frames with
                   | some l => !l.isEmpty
                   | none => false)
      if inAppendMerge then
        let prior := session.frames.getD []
        let prevCurrentValues := cloneBlendshapeMap session.currentValues
        let merged := jsSortBy (fun f => f.time) (prior ++ normalizedFrames)
        let deduped := collapseNearDuplicates merged
        ({session with frames := some deduped,
                       currentValues := prevCurrentValues,
                       framesCoveredSec := newCovered}, normalizedFrames)
      else
        ({session with frames := some normalizedFrames,
                       currentValues :=
                         match normalizedFrames.head? with
                         | some f => cloneBlendshapeMap f.values
                         | none => [],
                       syncBiasSec := 0,
                       framesCoveredSec := newCovered}, normalizedFrames)

/-! ## Frame queue and playback scheduling -/

/-- `scheduleFramePlayback` (as a pure per-frame update; `audio0` is finite by
construction of `Anchor`, and `Number(frame.time) || 0` is the identity on a
finite `time`). -/
def scheduleFramePlayback (anchor : Option Anchor) (f : QFrame) : QFrame :=
  match anchor with
  | none => {f with playAt := none}
  | some a => {f with playAt := some (a.audio0 + (f.time - a.a2f0))}

/-- `enqueueSessionFrames`: copy each frame into the queue (every modelled
frame has a finite `time`, so the `Number.isFinite` filter keeps all of
them), stable-sort by time, recompute every `playAt`, and remember the last
queued time. -/
def enqueueSessionFrames (session : Session) (frames : List NFrame) : Session :=
  if frames.isEmpty then session
  else
    let queue := session.frameQueue ++
      frames.map fun f => ({time := f.time, values := f.values, playAt := none} : QFrame)
    let queue := jsSortBy (fun f => f.time) queue
    let queue := queue.map (scheduleFramePlayback session.anchor)
    let lastFrameTime :=
      match queue.getLast? with
      | some f => f.time
      | none => session.lastFrameTime
    {session with frameQueue := queue, lastFrameTime := lastFrameTime}

/-- The `while` loop of `pumpSessionFrames`, as structural recursion on the
queue. Branches, in source order: reschedule a frame with no `playAt`; break
if it still has none; break if the head is early beyond the tolerance; drop
and continue if it is late beyond `FRAME_LATE_DROP_SEC` (counting the drop);
break if the minimum spacing since the last emission has not elapsed
(`lastEmitAudioTime = none` models the initial `-Infinity`, which passes);
otherwise emit: copy the values into `currentValues`, record the emission
time, and stop after this single frame.
`Number(next.time) || nowAudio` makes `lastSampleTimeSec` fall back to the
clock when the frame time is exactly 0 (JS falsiness). -/
def pumpLoop (s : Session) (nowAudio : ℚ) : List QFrame → Session
  | [] => {s with frameQueue := []}
  | next :: rest =>
    let next := if next.playAt.isNone then scheduleFramePlayback s.anchor next else next
    match next.playAt with
    | none => {s with frameQueue := next :: rest}
    | some p =>
      if nowAudio + FRAME_EARLY_TOLERANCE_SEC < p then
        {s with frameQueue := next :: rest}
      else if FRAME_LATE_DROP_SEC < nowAudio - p then
        pumpLoop {s with lateDropsTotal := s.lateDropsTotal + 1} nowAudio rest
      else
        let spacingBlocked : Bool :=
          match s.lastEmitAudioTime with
          | some lastEmit => decide (nowAudio - lastEmit < FRAME_MIN_SPACING_SEC)
          | none => false
        if spacingBlocked then {s with frameQueue := next :: rest}
        else
          {s with currentValues := next.values,
                  lastEmitAudioTime := some nowAudio,
                  lastSampleTimeSec := if next.time = 0 then nowAudio else next.time,
                  lastFrameTime := max s.lastFrameTime next.time,
                  frameQueue := rest}

/-- `pumpSessionFrames` (callers always pass a finite `nowAudio`). -/
def pumpSessionFrames (s : Session) (nowAudio : ℚ) : Session :=
  pumpLoop s nowAudio s.frameQueue

/-- `setPlaybackAnchor` for a finite `audioStartSec`; `frameStartSec = none`
models a non-finite frame origin, defaulted to 0. Also rewinds
`lastEmitAudioTime` one spacing step so a frame at the anchor itself may
emit on the very next tick, and recomputes every queued `playAt`. -/
def setPlaybackAnchor (s : Session) (audioStartSec : ℚ)
    (frameStartSec : Option ℚ) : Session :=
  let anchor : Anchor := {audio0 := audioStartSec, a2f0 := frameStartSec.getD 0}
  {s with anchor := some anchor,
          syncBiasSec := 0,
          lastEmitAudioTime := some (anchor.audio0 - FRAME_MIN_SPACING_SEC),
          baseOffsetSec := some (anchor.audio0 - anchor.a2f0),
          frameQueue := s.frameQueue.map (scheduleFramePlayback (some anchor))}

/-! ## `handleBlendshapeResponse` -/

/-- `handleBlendshapeResponse`, value-relevant parts: resolve the base time
(defaulting to the session's coverage watermark), normalize the batch, drop
frames more than `FRAME_LATE_DROP_SEC` behind the session's last queued time
(counting them as late drops), and enqueue the survivors (clearing the
completion flag). The `timelineStart` bookkeeping, the order-status
classification and the `onFrames`/`onFirstFrames` callbacks do not feed back
into the engine state and are omitted. -/
def handleBlendshapeResponse (s : Session) (data : Option (List RawFrame))
    (append : Bool) (baseTimeSecOpt : Option ℚ) : Session :=
  let baseTimeSec : ℚ :=
    match baseTimeSecOpt with
    | some b => max 0 b
    | none => s.framesCoveredSec
  let applied := applyBlendshapeFrames s data append (some baseTimeSec)
  let s1 := applied.1
  let normalizedFrames := applied.2
  let dropThreshold := s1.lastFrameTime - FRAME_LATE_DROP_SEC
  let accepted := normalizedFrames.filter fun f => ¬ f.time < dropThreshold
  let lateInc := (normalizedFrames.filter fun f => f.time < dropThreshold).length
  let s2 := {s1 with lateDropsTotal := s1.lateDropsTotal + lateInc}
  if accepted.isEmpty then s2
  else
    enqueueSessionFrames
      {s2 with audioCompleted := false} accepted

/-- The drain-response continuation of `drainToA2F`/`finalizeSession`:
`append` iff the session already has frames, `baseTimeSec` the coverage
watermark captured when the request was issued (equal to the watermark at
response time, by single-flight). -/
def driverApplyResponse (s : Session) (data : Option (List RawFrame)) : Session :=
  let shouldAppend :=
    match s.frames with
    | some l => !l.isEmpty
    | none => false
  handleBlendshapeResponse s data shouldAppend (some s.framesCoveredSec)

/-! ## The single-flight drain state machine

`drainToA2F`, the drain request's `.finally` continuation, and
`finalizeSession` interact with a session's `pending` slot on the single JS
event loop, so each runs atomically. Their effect on the request accounting
is modelled as a transition system over one session's drain state; the Bool
parameters abstract the data-dependent guards (driver enabled, drain
interval elapsed, non-empty encodable payload, audio chunks present). A
fallback-timer firing is the op sequence `drain force` followed (on
completion) by `finalize`. -/

inductive PendingKind
  | drain
  | finalize
deriving DecidableEq

/-- One session's drain bookkeeping: the `session.pending` slot and the
number of issued-but-unresolved requests. -/
structure DrainState where
  pending : Option PendingKind
  outstanding : ℕ

def initDrainState : DrainState := ⟨none, 0⟩

/-- `drainToA2F(session, {force})`: skip if inactive; skip if not forced and
the minimum drain interval has not elapsed; if a request is pending, return
it without issuing a new one (with `force` a re-drain continuation is
attached to it, which is the completion op's re-drain); otherwise encode the
backlog and issue a request iff a payload is available. -/
def drainToA2F (active intervalOk force payload : Bool) (s : DrainState) :
    DrainState :=
  if !active then s
  else if !force && !intervalOk then s
  else if s.pending.isSome then s
  else if payload then {pending := some .drain, outstanding := s.outstanding + 1}
  else s

/-- The `.finally` continuation of a resolved request: clear
`session.pending`, and — for a `drainToA2F` request — immediately attempt
another drain (`finalizeSession`'s request only clears the flag). A
completion op can only fire for the request recorded in `pending`. -/
def completeRequest (active nextIntervalOk nextForce nextPayload : Bool)
    (s : DrainState) : DrainState :=
  match s.pending with
  | some .drain =>
    drainToA2F active nextIntervalOk nextForce nextPayload
      ⟨none, s.outstanding - 1⟩
  | some .finalize => ⟨none, s.outstanding - 1⟩
  | none => s

/-- `finalizeSession`: return at once while a request is pending or the
driver is inactive; otherwise issue the final request iff audio chunks
remain to normalize and encode. -/
def finalizeSession (active hasAudio : Bool) (s : DrainState) : DrainState :=
  if s.pending.isSome || !active then s
  else if hasAudio then {pending := some .finalize, outstanding := s.outstanding + 1}
  else s

/-- One event-loop turn touching the session's drain state. -/
inductive DrainOp
  | drain (active intervalOk force payload : Bool)
  | complete (active nextIntervalOk nextForce nextPayload : Bool)
  | finalize (active hasAudio : Bool)

def drainStep : DrainOp → DrainState → DrainState
  | .drain a i f p => drainToA2F a i f p
  | .complete a i f p => completeRequest a i f p
  | .finalize a h => finalizeSession a h

/-- A session's drain state after an arbitrary interleaving of ingest-driven
drains, request completions, and finalize attempts. -/
def runDrainOps (ops : List DrainOp) : DrainState :=
  ops.foldl (fun s op => drainStep op s) initDrainState

/-! ## The audio normalizer -/

/-- A `Uint8Array` element. -/
abbrev Byte := Fin 256

def mkByte (n : ℕ) : Byte := ⟨n % 256, Nat.mod_lt _ (by norm_num)⟩

/-- `DataView.getInt16(·, true)` of one little-endian byte pair, scaled to
`[-1, 1)` (`/ 32768`). -/
def pcm16ToSample (lo hi : Byte) : ℚ :=
  let u : ℕ := (lo : ℕ) + 256 * (hi : ℕ)
  let signed : ℤ := if u < 32768 then (u : ℤ) else (u : ℤ) - 65536
  (signed : ℚ) / 32768

/-- The sample loop of `pcm16BytesToFloat32Mono`: a trailing odd byte is
outside `usableLength` and dropped. -/
def bytePairsToSamples : List Byte → List ℚ
  | lo :: hi :: rest => pcm16ToSample lo hi :: bytePairsToSamples rest
  | _ => []

/-- `pcm16BytesToFloat32Mono`. -/
def pcm16BytesToFloat32Mono (bytes : List Byte) : List ℚ :=
  if bytes.length < 2 then [] else bytePairsToSamples bytes

/-- `Math.round` (half toward `+∞`). -/
def jsRound (q : ℚ) : ℤ := ⌊q + 1/2⌋

/-- `x | 0` on a number in int32 range: truncation toward zero. -/
def ratTrunc (q : ℚ) : ℤ := if 0 ≤ q then ⌊q⌋ else -⌊-q⌋

/-- `resampleFloat32Mono`: linear interpolation at positions `i * src/dst`;
`sourceRate = none` models a non-finite source rate (the JS guard returns a
copy of the input). -/
def resampleFloat32Mono (source : List ℚ) (sourceRate : Option ℚ)
    (targetRate : ℚ) : List ℚ :=
  if source.isEmpty then []
  else
    match sourceRate with
    | none => source
    | some sr =>
      if sr ≤ 0 ∨ sr = targetRate then source
      else if targetRate ≤ 0 then source
      else
        let ratio := targetRate / sr
        let targetLength := (max 1 (jsRound ((source.length : ℚ) * ratio))).toNat
        let step := sr / targetRate
        (List.range targetLength).map fun i =>
          let position := (i : ℚ) * step
          let leftIndex := ⌊position⌋
          let rightIndex := min ((source.length : ℤ) - 1) (leftIndex + 1)
          let left := source.getD leftIndex.toNat 0
          let right := source.getD rightIndex.toNat left
          left + (right - left) * (position - leftIndex)

/-- The two little-endian bytes of an `Int16Array` store. -/
def int16ToBytes (i : ℤ) : List Byte :=
  let u := (i % 65536).toNat
  [mkByte (u % 256), mkByte (u / 256)]

/-- `float32ToPcm16Mono16k`: clamp to `[-1, 1]`, scale asymmetrically
(`* 32768` for negatives, `* 32767` otherwise), truncate (`| 0`), and store
as little-endian int16 bytes. The samples reaching it in the modelled paths
are finite, so the `Number.isFinite` reset to 0 is vacuous. -/
def float32ToPcm16Mono16k (samples : List ℚ) : List Byte :=
  samples.flatMap fun s =>
    let s := max (-1) (min 1 s)
    let v := if s < 0 then s * 32768 else s * 32767
    int16ToBytes (ratTrunc v)

/-- The part of the `ensurePcm16Mono16k` result the engine consumes (the
`stats` component only feeds `console.warn` diagnostics and is omitted). -/
structure EnsureResult where
  bytes : List Byte
  sampleRate : ℚ

/-- `ensurePcm16Mono16k`: a non-finite or non-positive `sampleRate` falls
back to the 16 kHz target; an empty buffer short-circuits to an empty
result. -/
def ensurePcm16Mono16k (bytes : List Byte) (sampleRate : Option ℚ) :
    EnsureResult :=
  let sourceRate : ℚ :=
    match sampleRate with
    | some r => if 0 < r then r else PCM16_TARGET_SAMPLE_RATE
    | none => PCM16_TARGET_SAMPLE_RATE
  if bytes.isEmpty then ⟨[], PCM16_TARGET_SAMPLE_RATE⟩
  else
    let float32 := pcm16BytesToFloat32Mono bytes
    let resampled := resampleFloat32Mono float32 (some sourceRate) PCM16_TARGET_SAMPLE_RATE
    ⟨float32ToPcm16Mono16k resampled, PCM16_TARGET_SAMPLE_RATE⟩

/-! ## The base64 codec -/

def b64Alphabet : List Char :=
  "ABCDEFGHIJKLMNOPQRSTUVWXYZabcdefghijklmnopqrstuvwxyz0123456789+/".data

def b64Chr (n : ℕ) : Char := b64Alphabet.getD n 'A'

/-- `BASE64_LOOKUP_TABLE[code]`: the sextet of an alphabet character, `none`
for `0xff` entries (the table's `'='` entry is never consulted: the decode
loop breaks on `'='` first). -/
def b64Val (c : Char) : Option ℕ := b64Alphabet.findIdx? (· == c)

/-- `btoa` on a byte string: emit 3-byte groups as 4 sextet characters,
padding the final 1- or 2-byte group with `=`. -/
def encodeB64 : List Byte → List Char
  | [] => []
  | [b1] => [b64Chr (b1 / 4), b64Chr (b1 % 4 * 16), '=', '=']
  | [b1, b2] =>
    [b64Chr (b1 / 4), b64Chr (b1 % 4 * 16 + b2 / 16), b64Chr (b2 % 16 * 4), '=']
  | b1 :: b2 :: b3 :: rest =>
    b64Chr (b1 / 4) :: b64Chr (b1 % 4 * 16 + b2 / 16) ::
      b64Chr (b2 % 16 * 4 + b3 / 64) :: b64Chr (b3 % 64) :: encodeB64 rest

/-- `uint8ArrayToBase64`: `btoa` of the bytes read as a binary string (the
0x8000-element chunking only bounds `String.fromCharCode` arity and does not
change the result; `encodeB64 [] = []` coincides with the early `''`). -/
def uint8ArrayToBase64 (bytes : List Byte) : String := ⟨encodeB64 bytes⟩

/-- Split a character list at its first comma, returning the parts before
and after it. -/
def splitAtFirstComma : List Char → Option (List Char × List Char)
  | [] => none
  | c :: cs =>
    if c = ',' then some ([], cs)
    else
      match splitAtFirstComma cs with
      | some (b, a) => some (c :: b, a)
      | none => none

/-- `String.prototype.includes`: does `hay` contain `needle` as a contiguous
subsequence? -/
def listContainsSeq (needle : List Char) : List Char → Bool
  | [] => needle.isEmpty
  | c :: t => needle.isPrefixOf (c :: t) || listContainsSeq needle t

/-- The `else` branch of the data-URL stripping: take everything after the
first comma when the part before it contains `base64` (case-insensitively);
otherwise leave the string alone. -/
def fallbackComma (s : List Char) : List Char :=
  match splitAtFirstComma s with
  | some (before, after) =>
    if listContainsSeq "base64".data (lowerAll before) then after else s
  | none => s

/-- `s.match(/^data:[^,]+,([\s\S]*)$/i)` with the comma-scan fallback: on a
case-insensitive `data:` prefix followed by at least one non-comma character
and a comma, keep the capture after the comma. -/
def dataUrlStrip (s : List Char) : List Char :=
  if lowerAll (s.take 5) = "data:".data then
    match splitAtFirstComma (s.drop 5) with
    | some (before, after) => if before.isEmpty then fallbackComma s else after
    | none => fallbackComma s
  else fallbackComma s

/-- The character class kept by `.replace(/[^A-Za-z0-9+/=]/g, '')`. -/
def isB64Char (c : Char) : Bool :=
  isAsciiAlnum c ∨ c.toNat = 43 ∨ c.toNat = 47 ∨ c.toNat = 61

/-- `normalizeBase64`. -/
def normalizeBase64 (b64 : String) : Option String :=
  let s := jsTrim b64.data
  if s.isEmpty then none
  else
    let s := dataUrlStrip s
    let s := s.filter fun c => !(jsIsWs c)
    let s := s.filter fun c => c.toNat ≠ 0
    let s := s.map fun c => if c.toNat = 45 then '+' else c
    let s := s.map fun c => if c.toNat = 95 then '/' else c
    let s := s.filter isB64Char
    let rem := s.length % 4
    if rem = 1 then none
    else if rem = 0 then some ⟨s⟩
    else some ⟨s ++ List.replicate (4 - rem) '='⟩

/-- The accumulator loop of `decodeNormalizedBase64ToUint8Array`: break on
`'='` (code 61), skip `0xff` table entries, shift six bits in per character,
and emit a byte whenever eight bits are available and capacity remains
(`idx < out.length`, else break). -/
def decodeB64Loop : List Char → ℕ → ℕ → ℕ → List Byte
  | [], _, _, _ => []
  | c :: cs, buf, bits, remaining =>
    if c.toNat = 61 then []
    else
      match b64Val c with
      | none => decodeB64Loop cs buf bits remaining
      | some v =>
        let buf := buf * 64 + v
        let bits := bits + 6
        if 8 ≤ bits then
          if remaining = 0 then []
          else
            mkByte (buf / 2 ^ (bits - 8)) ::
              decodeB64Loop cs (buf % 2 ^ (bits - 8)) (bits - 8) (remaining - 1)
        else decodeB64Loop cs buf bits remaining

/-- `decodeNormalizedBase64ToUint8Array`: output capacity is
`(len >> 2) * 3` minus the padding, clamped at 0; the returned array is the
`subarray(0, idx)` of emitted bytes. -/
def decodeNormalizedBase64ToUint8Array (s : String) : List Byte :=
  let cs := s.data
  if cs.isEmpty then []
  else
    let pad : ℤ :=
      if ['=', '='].isSuffixOf cs then 2 else if ['='].isSuffixOf cs then 1 else 0
    let outLen : ℤ := (cs.length / 4 : ℕ) * 3 - pad
    decodeB64Loop cs 0 0 outLen.toNat

/-! ## Batch coverage characterization (for the `framesCoveredSec` claim) -/

/-- The bumped local times a response batch gets in `applyBlendshapeFrames`. -/
def batchBumpedLocalTimes (frames : List RawFrame) : List ℚ :=
  (bumpTimes (jsSortBy preparedSortKey (prepareFrames frames)) none
    DEFAULT_FRAME_DELTA_SEC).map (·.2)

/-- The resolved `baseTimeSec` of `applyBlendshapeFrames` (spec-side
characterization of the source's inline computation). -/
def resolveBaseTimeSec (s : Session) (append : Bool) (bOpt : Option ℚ) : ℚ :=
  match bOpt with
  | some b => max 0 b
  | none => max 0 (if append then s.framesCoveredSec else 0)

/-- The coverage advance a batch produces: its largest positive bumped local
time, floored at one frame step for single-frame batches. -/
def batchObservedAdvance (frames : List RawFrame) : ℚ :=
  let ts := batchBumpedLocalTimes frames
  let maxLocal := ts.foldl (fun m t => max m t) 0
  if 1 < ts.length then maxLocal else max maxLocal DEFAULT_FRAME_DELTA_SEC

/-! ## Concrete scenario inputs -/

/-- Scenario B of the spec: the same key in two casings at the same
timestamp, in two frames of one fresh-session batch. -/
def scenarioBResponse : List RawFrame :=
  [⟨some 0, [("jawOpen", some (1/2))]⟩, ⟨some 0, [("JawOpen", some (9/10))]⟩]

def scenarioBSession : Session :=
  driverApplyResponse createSession (some scenarioBResponse)

/-- Two batches whose absolute times collide: the first covers local `[0, 1]`,
the second (appended at base 1) starts at local 0, landing at absolute 1
again. -/
def tieBatch1 : List RawFrame := [⟨some 0, []⟩, ⟨some 1, []⟩]

def tieBatch2 : List RawFrame := [⟨some 0, []⟩]

def tieSession1 : Session := driverApplyResponse createSession (some tieBatch1)

def tieSession2 : Session := driverApplyResponse tieSession1 (some tieBatch2)

/-- A first batch covering `[0, 1]`, then an appended batch with slightly
negative service timestamps: its frames land at absolute `0.95` and `0.96`,
above the late-drop threshold `0.9`, yet its bumped local times are all
negative. -/
def coverageBatch1 : List RawFrame := [⟨some 0, []⟩, ⟨some 1, []⟩]

def coverageBatch2 : List RawFrame := [⟨some (-1/20), []⟩, ⟨some (-1/25), []⟩]

def coverageSession1 : Session :=
  driverApplyResponse createSession (some coverageBatch1)

def coverageSession2 : Session :=
  driverApplyResponse coverageSession1 (some coverageBatch2)

/-- Scenario C of the spec: one frame at local time 0.5, anchored at
`audio0 = 10.0`, `frame0 = 0`. -/
def scenarioCSession : Session :=
  setPlaybackAnchor
    (enqueueSessionFrames createSession [⟨1/2, 1/2, [("jawOpen", 1)]⟩]) 10 (some 0)

/-- Scenario D of the spec: one frame scheduled at `playAt = 0`, anchored at
`audio0 = 0`. -/
def scenarioDSession : Session :=
  setPlaybackAnchor
    (enqueueSessionFrames createSession [⟨0, 0, [("jawOpen", 1)]⟩]) 0 (some 0)

/-- A single-frame replace-mode batch (a fresh session's first response). -/
def replaceBatch : List RawFrame := [⟨some 0, [("jawOpen", some (9/10))]⟩]

/-- A two-byte buffer fed to the normalizer with a non-finite sample rate. -/
def degenerateRateBytes : List Byte := [mkByte 0, mkByte 1]


/-! ## Character-level lemmas -/

theorem char_eq_iff_toNat (a b : Char) : a = b ↔ a.toNat = b.toNat :=
  ⟨fun h => h ▸ rfl, fun h => Char.ext_iff.mpr (UInt32.ext h)⟩

theorem char_toUpper_toNat (c : Char) :
    (Char.toUpper c).toNat = if 97 ≤ c.toNat ∧ c.toNat ≤ 122 then c.toNat - 32 else c.toNat := by
  show (if c.toNat ≥ 97 ∧ c.toNat ≤ 122 then Char.ofNat (c.toNat - 32) else c).toNat
      = if 97 ≤ c.toNat ∧ c.toNat ≤ 122 then c.toNat - 32 else c.toNat
  by_cases h : 97 ≤ c.toNat ∧ c.toNat ≤ 122
  · rw [if_pos ⟨h.1, h.2⟩, if_pos h]
    have hv : (c.toNat - 32).isValidChar := by
      unfold Nat.isValidChar
      left
      omega
    rw [show Char.ofNat (c.toNat - 32) = Char.ofNatAux (c.toNat - 32) hv from dif_pos hv]
    simp only [Char.ofNatAux, Char.toNat]
    rfl
  · rw [if_neg h, if_neg h]

theorem char_toLower_toNat (c : Char) :
    (Char.toLower c).toNat = if 65 ≤ c.toNat ∧ c.toNat ≤ 90 then c.toNat + 32 else c.toNat := by
  show (if c.toNat ≥ 65 ∧ c.toNat ≤ 90 then Char.ofNat (c.toNat + 32) else c).toNat
      = if 65 ≤ c.toNat ∧ c.toNat ≤ 90 then c.toNat + 32 else c.toNat
  by_cases h : 65 ≤ c.toNat ∧ c.toNat ≤ 90
  · rw [if_pos ⟨h.1, h.2⟩, if_pos h]
    have hv : (c.toNat + 32).isValidChar := by
      unfold Nat.isValidChar
      left
      omega
    rw [show Char.ofNat (c.toNat + 32) = Char.ofNatAux (c.toNat + 32) hv from dif_pos hv]
    simp only [Char.ofNatAux, Char.toNat]
    rfl
  · rw [if_neg h, if_neg h]

theorem isSepChar_toUpper (c : Char) : isSepChar c.toUpper = isSepChar c := by
  simp only [isSepChar, jsIsWs, decide_eq_true_eq]
  rw [decide_eq_decide, char_toUpper_toNat]
  by_cases hr : 97 ≤ c.toNat ∧ c.toNat ≤ 122
  · rw [if_pos hr]
    omega
  · rw [if_neg hr]

theorem jsIsWs_eq_false_of_isSepChar (c : Char) (h : isSepChar c = false) :
    jsIsWs c = false := by
  simp only [isSepChar, jsIsWs, decide_eq_true_eq, decide_eq_false_iff_not, not_or] at h ⊢
  exact h.2.2

/-! ## Trim lemmas -/

theorem dropWhile_dropWhile {α : Type} (p : α → Bool) (l : List α) :
    (l.dropWhile p).dropWhile p = l.dropWhile p := by
  induction l with
  | nil => rfl
  | cons a l ih =>
    by_cases h : p a
    · simp [List.dropWhile_cons, h, ih]
    · simp [List.dropWhile_cons, h]

theorem head?_dropWhile {α : Type} (p : α → Bool) (l : List α) :
    ∀ a, (l.dropWhile p).head? = some a → p a = false := by
  induction l with
  | nil => intro a h; simp at h
  | cons b l ih =>
    intro a h
    by_cases hb : p b
    · rw [List.dropWhile_cons, if_pos hb] at h
      exact ih a h
    · rw [List.dropWhile_cons, if_neg hb] at h
      simp only [List.head?_cons, Option.some.injEq] at h
      rw [← h]
      exact Bool.of_not_eq_true hb

theorem dropWhile_eq_self_of_head? {α : Type} (p : α → Bool) (l : List α)
    (h : ∀ a, l.head? = some a → p a = false) : l.dropWhile p = l := by
  cases l with
  | nil => rfl
  | cons a l => rw [List.dropWhile_cons, if_neg (by simp [h a rfl])]

theorem dropWhile_eq_self_of_all {α : Type} (p : α → Bool) (l : List α)
    (h : ∀ a ∈ l, p a = false) : l.dropWhile p = l := by
  cases l with
  | nil => rfl
  | cons a l => rw [List.dropWhile_cons, if_neg (by simp [h a (by simp)])]

theorem getLast?_dropWhile {α : Type} (p : α → Bool) (l : List α) :
    l.dropWhile p = [] ∨ (l.dropWhile p).getLast? = l.getLast? := by
  induction l with
  | nil => left; rfl
  | cons a l ih =>
    by_cases h : p a
    · rw [List.dropWhile_cons, if_pos h]
      rcases ih with h1 | h1
      · left; exact h1
      · cases l with
        | nil => left; rfl
        | cons b l =>
          right
          rw [h1, List.getLast?_cons_cons]
    · right; rw [List.dropWhile_cons, if_neg h]

theorem jsTrim_of_ws_free (l : List Char) (h : ∀ c ∈ l, jsIsWs c = false) :
    jsTrim l = l := by
  unfold jsTrim
  rw [dropWhile_eq_self_of_all _ _ h,
      dropWhile_eq_self_of_all _ _ (fun c hc => h c (List.mem_reverse.mp hc)),
      List.reverse_reverse]

theorem jsTrim_idem (l : List Char) : jsTrim (jsTrim l) = jsTrim l := by
  unfold jsTrim
  set A := l.dropWhile jsIsWs with hA
  set B := A.reverse.dropWhile jsIsWs with hB
  have hDropB : B.reverse.dropWhile jsIsWs = B.reverse := by
    apply dropWhile_eq_self_of_head?
    intro a ha
    rw [List.head?_reverse] at ha
    rcases getLast?_dropWhile jsIsWs A.reverse with h1 | h1
    · rw [← hB] at h1
      rw [h1] at ha
      simp at ha
    · rw [← hB] at h1
      rw [h1, List.getLast?_reverse] at ha
      exact head?_dropWhile jsIsWs l a ha
  rw [hDropB, List.reverse_reverse, dropWhile_dropWhile]

/-! ## Camel-casing lemmas -/

theorem camel_sep_free (l : List Char) :
    (∀ c ∈ camelCollapse l, isSepChar c = false) ∧
    (∀ c ∈ camelAfterSep l, isSepChar c = false) := by
  induction l with
  | nil => exact ⟨by simp [camelCollapse], by simp [camelAfterSep]⟩
  | cons a l ih =>
    constructor
    · intro d hd
      rw [camelCollapse] at hd
      by_cases ha : isSepChar a
      · rw [if_pos ha] at hd
        exact ih.2 d hd
      · rw [if_neg ha] at hd
        rcases List.mem_cons.mp hd with h1 | h1
        · rw [h1]
          exact Bool.of_not_eq_true ha
        · exact ih.1 d h1
    · intro d hd
      rw [camelAfterSep] at hd
      by_cases ha : isSepChar a
      · rw [if_pos ha] at hd
        exact ih.2 d hd
      · rw [if_neg ha] at hd
        rcases List.mem_cons.mp hd with h1 | h1
        · rw [h1, isSepChar_toUpper]
          exact Bool.of_not_eq_true ha
        · exact ih.1 d h1

theorem camelCollapse_of_sep_free (l : List Char)
    (h : ∀ c ∈ l, isSepChar c = false) : camelCollapse l = l := by
  induction l with
  | nil => rfl
  | cons a l ih =>
    rw [camelCollapse, if_neg (by simp [h a (by simp)]),
        ih (fun c hc => h c (List.mem_cons_of_mem a hc))]

theorem upperFirstIfLower_sep_free (l : List Char)
    (h : ∀ c ∈ l, isSepChar c = false) :
    ∀ c ∈ upperFirstIfLower l, isSepChar c = false := by
  cases l with
  | nil => simp [upperFirstIfLower]
  | cons a l =>
    intro d hd
    rw [upperFirstIfLower] at hd
    by_cases ha : 97 ≤ a.toNat ∧ a.toNat ≤ 122
    · rw [if_pos ha] at hd
      rcases List.mem_cons.mp hd with h1 | h1
      · rw [h1, isSepChar_toUpper]
        exact h a (by simp)
      · exact h d (List.mem_cons_of_mem a h1)
    · rw [if_neg ha] at hd
      exact h d hd

theorem upperFirstIfLower_idem (l : List Char) :
    upperFirstIfLower (upperFirstIfLower l) = upperFirstIfLower l := by
  cases l with
  | nil => rfl
  | cons a l =>
    by_cases ha : 97 ≤ a.toNat ∧ a.toNat ≤ 122
    · rw [upperFirstIfLower, if_pos ha, upperFirstIfLower, if_neg]
      have := char_toUpper_toNat a
      rw [if_pos ha] at this
      omega
    · rw [upperFirstIfLower, if_neg ha, upperFirstIfLower, if_neg ha]

/-! ## Canonical-table facts -/

theorem canonMapGet_mem {k : List Char} {s : String} (h : canonMapGet k = some s) :
    s ∈ BLENDSHAPE_CANONICAL_NAMES :=
  List.mem_of_find?_eq_some h

theorem canon_names_fixed :
    ∀ n ∈ BLENDSHAPE_CANONICAL_NAMES, canonicalizeBlendshapeName n = some n := by
  decide

/-- C9: blendshape-name canonicalization is idempotent. Canonicalizing the
result of a canonicalization (table hit or best-effort camel-casing alike)
returns it unchanged. -/
theorem canonicalizeBlendshapeName_idempotent (x : String) :
    (canonicalizeBlendshapeName x).bind canonicalizeBlendshapeName =
      canonicalizeBlendshapeName x := by
  rcases hres : canonicalizeBlendshapeName x with _ | s
  · rfl
  · rw [Option.some_bind]
    simp only [canonicalizeBlendshapeName] at hres
    by_cases h0 : jsTrim x.data = []
    · rw [if_pos h0] at hres
      exact absurd hres (by simp)
    rw [if_neg h0] at hres
    cases hm : canonMapGet (lowerAll (stripNonAlnum (jsTrim x.data))) with
    | some canon =>
      rw [hm] at hres
      have hs : canon = s := by
        simpa using hres
      subst hs
      exact canon_names_fixed canon (canonMapGet_mem hm)
    | none =>
      rw [hm] at hres
      cases hm2 : canonMapGet
          (lowerAll (stripNonAlnum (upperFirstIfLower (camelCollapse (jsTrim x.data))))) with
      | some canon =>
        rw [hm2] at hres
        have hs : canon = s := by
          simpa using hres
        subst hs
        exact canon_names_fixed canon (canonMapGet_mem hm2)
      | none =>
        rw [hm2] at hres
        set cm := upperFirstIfLower (camelCollapse (jsTrim x.data)) with hcm
        by_cases hce : cm = []
        · -- `camelized || trimmed` falls back to the trimmed input
          rw [if_pos hce] at hres
          have hs : (⟨jsTrim x.data⟩ : String) = s := by
            simpa using hres
          subst hs
          have hdata : (⟨jsTrim x.data⟩ : String).data = jsTrim x.data := rfl
          simp only [canonicalizeBlendshapeName, hdata, jsTrim_idem]
          rw [if_neg h0, hm, ← hcm, hm2, if_pos hce]
        · rw [if_neg hce] at hres
          have hs : (⟨cm⟩ : String) = s := by
            simpa using hres
          subst hs
          have hsep : ∀ c ∈ cm, isSepChar c = false := by
            rw [hcm]
            exact upperFirstIfLower_sep_free _ (camel_sep_free _).1
          have hws : ∀ c ∈ cm, jsIsWs c = false :=
            fun c hc => jsIsWs_eq_false_of_isSepChar c (hsep c hc)
          have htrim : jsTrim cm = cm := jsTrim_of_ws_free _ hws
          have hdata : (⟨cm⟩ : String).data = cm := rfl
          have hcoll : camelCollapse cm = cm := camelCollapse_of_sep_free _ hsep
          have hupper : upperFirstIfLower cm = cm := by
            rw [hcm, upperFirstIfLower_idem]
          simp only [canonicalizeBlendshapeName, hdata, htrim, hcoll, hupper]
          rw [if_neg hce, hm2, if_neg hce]

/-! ## Stable-sort lemmas -/

theorem mem_stableInsert {α : Type} (key : α → ℚ) (x b : α) (l : List α) :
    b ∈ stableInsert key x l ↔ b = x ∨ b ∈ l := by
  induction l with
  | nil => simp [stableInsert]
  | cons y ys ih =>
    rw [stableInsert]
    by_cases hyx : key y ≤ key x
    · rw [if_pos hyx]
      simp only [List.mem_cons, ih]
      tauto
    · rw [if_neg hyx]
      simp only [List.mem_cons]

theorem stableInsert_pairwise {α : Type} (key : α → ℚ) (x : α) (l : List α)
    (h : l.Pairwise (fun a b => key a ≤ key b)) :
    (stableInsert key x l).Pairwise (fun a b => key a ≤ key b) := by
  induction l with
  | nil => simp [stableInsert]
  | cons y ys ih =>
    rw [stableInsert]
    rw [List.pairwise_cons] at h
    by_cases hyx : key y ≤ key x
    · rw [if_pos hyx]
      rw [List.pairwise_cons]
      constructor
      · intro b hb
        rcases (mem_stableInsert key x b ys).mp hb with rfl | hb'
        · exact hyx
        · exact h.1 b hb'
      · exact ih h.2
    · rw [if_neg hyx]
      push_neg at hyx
      rw [List.pairwise_cons]
      constructor
      · intro b hb
        rcases List.mem_cons.mp hb with rfl | hb'
        · exact le_of_lt hyx
        · exact le_trans (le_of_lt hyx) (h.1 b hb')
      · rw [List.pairwise_cons]
        exact h

theorem jsSortBy_sorted {α : Type} (key : α → ℚ) (l : List α) :
    (jsSortBy key l).Pairwise (fun a b => key a ≤ key b) := by
  suffices h : ∀ acc : List α, acc.Pairwise (fun a b => key a ≤ key b) →
      (l.foldl (fun acc x => stableInsert key x acc) acc).Pairwise
        (fun a b => key a ≤ key b) from h [] (by simp)
  induction l with
  | nil => intro acc hacc; exact hacc
  | cons x xs ih =>
    intro acc hacc
    exact ih _ (stableInsert_pairwise key x acc hacc)

theorem stableInsert_length {α : Type} (key : α → ℚ) (x : α) (l : List α) :
    (stableInsert key x l).length = l.length + 1 := by
  induction l with
  | nil => rfl
  | cons y ys ih =>
    rw [stableInsert]
    by_cases hyx : key y ≤ key x
    · rw [if_pos hyx]
      simp [ih]
    · rw [if_neg hyx]
      simp

theorem jsSortBy_length {α : Type} (key : α → ℚ) (l : List α) :
    (jsSortBy key l).length = l.length := by
  suffices h : ∀ acc : List α,
      (l.foldl (fun acc x => stableInsert key x acc) acc).length =
        acc.length + l.length from by simpa using h []
  induction l with
  | nil => intro acc; simp
  | cons x xs ih =>
    intro acc
    rw [List.foldl_cons, ih, stableInsert_length]
    simp [List.length_cons]
    omega

/-! ## Monotonic-bump lemmas -/

theorem bumpTimes_length (es : List Prepared) (lastTime : Option ℚ) (δ : ℚ) :
    (bumpTimes es lastTime δ).length = es.length := by
  induction es generalizing lastTime δ with
  | nil => rfl
  | cons e es ih => simp [bumpTimes, ih]

theorem bumpTimes_chain (es : List Prepared) :
    ∀ (lastTime : Option ℚ) (δ : ℚ),
      (((bumpTimes es lastTime δ).map (·.2)).Chain' (· < ·)) ∧
      (∀ lt : ℚ, lastTime = some lt →
        ∀ t, ((bumpTimes es lastTime δ).map (·.2)).head? = some t → lt < t) := by
  induction es with
  | nil => intro lastTime δ; exact ⟨by simp [bumpTimes], by simp [bumpTimes]⟩
  | cons e es ih =>
    intro lastTime δ
    simp only [bumpTimes, List.map_cons]
    cases lastTime with
    | none =>
      refine ⟨?_, by simp⟩
      rw [List.chain'_cons']
      refine ⟨?_, ((ih (some (e.timeCode.getD 0)) _).1)⟩
      intro b hb
      exact (ih (some (e.timeCode.getD 0)) _).2 _ rfl b hb
    | some lt =>
      set t := if e.timeCode.getD 0 ≤ lt then
          lt + (if 1/10000 < δ then δ else DEFAULT_FRAME_DELTA_SEC)
        else e.timeCode.getD 0 with ht
      have hlt : lt < t := by
        rw [ht]
        by_cases hc : e.timeCode.getD 0 ≤ lt
        · rw [if_pos hc]
          by_cases hd : 1/10000 < δ
          · rw [if_pos hd]; linarith
          · rw [if_neg hd]
            rw [DEFAULT_FRAME_DELTA_SEC]
            linarith
        · rw [if_neg hc]
          push_neg at hc
          exact hc
      constructor
      · rw [List.chain'_cons']
        refine ⟨?_, (ih (some t) _).1⟩
        intro b hb
        exact (ih (some t) _).2 _ rfl b hb
      · intro lt' hlt' t' ht'
        simp only [List.head?_cons, Option.some.injEq] at ht'
        obtain rfl : lt = lt' := by injection hlt'
        rw [← ht']
        exact hlt

/-! ## Fold-max lemmas -/

theorem ite_lt_eq_max (m t : ℚ) : (if m < t then t else m) = max m t := by
  by_cases h : m < t
  · rw [if_pos h, max_eq_right (le_of_lt h)]
  · rw [if_neg h, max_eq_left (le_of_not_lt h)]

theorem init_le_foldl_max (l : List ℚ) : ∀ a : ℚ, a ≤ l.foldl (fun m t => max m t) a := by
  induction l with
  | nil => intro a; simp
  | cons x xs ih =>
    intro a
    rw [List.foldl_cons]
    exact le_trans (le_max_left a x) (ih (max a x))

theorem mem_le_foldl_max (l : List ℚ) :
    ∀ (a x : ℚ), x ∈ l → x ≤ l.foldl (fun m t => max m t) a := by
  induction l with
  | nil => intro a x hx; simp at hx
  | cons y ys ih =>
    intro a x hx
    rw [List.foldl_cons]
    rcases List.mem_cons.mp hx with rfl | hx'
    · exact le_trans (le_max_right a x) (init_le_foldl_max ys (max a x))
    · exact ih (max a y) x hx'

theorem getLast?_mem' {α : Type} (l : List α) (a : α) (h : l.getLast? = some a) :
    a ∈ l := by
  induction l with
  | nil => simp at h
  | cons x xs ih =>
    cases xs with
    | nil =>
      simp only [List.getLast?_singleton, Option.some.injEq] at h
      simp [h]
    | cons y ys =>
      rw [List.getLast?_cons_cons] at h
      exact List.mem_cons_of_mem x (ih h)

/-! ## Playback-scheduling helper lemmas -/

theorem scheduleFramePlayback_time (anchor : Option Anchor) (f : QFrame) :
    (scheduleFramePlayback anchor f).time = f.time := by
  cases anchor <;> rfl

theorem applyBlendshapeFrames_batch_strict (s : Session) (data : Option (List RawFrame))
    (append : Bool) (b : Option ℚ) :
    (((applyBlendshapeFrames s data append b).2).map NFrame.time).Chain' (· < ·) := by
  cases data with
  | none => simp [applyBlendshapeFrames]
  | some frames =>
    simp only [applyBlendshapeFrames]
    by_cases hp : (prepareFrames frames).isEmpty
    · rw [if_pos hp]
      by_cases ha : append = true
      · rw [if_pos ha]; simp
      · rw [if_neg ha]; simp
    · rw [if_neg hp]
      by_cases hm : (append && (match s.frames with
                   | some l => !l.isEmpty
                   | none => false)) = true
      · rw [if_pos hm]
        rw [List.map_map, List.chain'_map]
        have h := (bumpTimes_chain (jsSortBy preparedSortKey (prepareFrames frames)) none DEFAULT_FRAME_DELTA_SEC).1
        rw [List.chain'_map] at h
        exact List.Chain'.imp (fun a b hab => by simpa using hab) h
      · rw [if_neg hm]
        rw [List.map_map, List.chain'_map]
        have h := (bumpTimes_chain (jsSortBy preparedSortKey (prepareFrames frames)) none DEFAULT_FRAME_DELTA_SEC).1
        rw [List.chain'_map] at h
        exact List.Chain'.imp (fun a b hab => by simpa using hab) h

theorem enqueueSessionFrames_sorted (s : Session) (f : NFrame) (fs : List NFrame) :
    ((enqueueSessionFrames s (f :: fs)).frameQueue).Pairwise
      (fun a b => a.time ≤ b.time) := by
  simp only [enqueueSessionFrames, List.isEmpty_cons, Bool.false_eq_true, if_false]
  rw [List.pairwise_map]
  have h := jsSortBy_sorted (fun g : QFrame => g.time)
    (s.frameQueue ++ (f :: fs).map fun g =>
      ({time := g.time, values := g.values, playAt := none} : QFrame))
  exact h.imp (fun {a b} hab => by
    simpa [scheduleFramePlayback_time] using hab)

/-- C1 (amended): after every enqueue of a non-empty batch the frame queue is
sorted with non-decreasing (not strictly increasing) times, and within a
single normalized batch the bumped times are strictly increasing; exact ties
between frames of different batches survive in the queue. -/
theorem frameQueue_sorted_after_enqueue :
    (∀ (s : Session) (f : NFrame) (fs : List NFrame),
      ((enqueueSessionFrames s (f :: fs)).frameQueue).Pairwise
        (fun a b => a.time ≤ b.time)) ∧
    (∀ (s : Session) (data : Option (List RawFrame)) (append : Bool) (b : Option ℚ),
      (((applyBlendshapeFrames s data append b).2).map NFrame.time).Chain' (· < ·)) :=
  ⟨enqueueSessionFrames_sorted, applyBlendshapeFrames_batch_strict⟩

/-- C1 (counterexample): a first batch covering local times 0 and 1 followed
by an appended batch starting at local 0 (absolute 1) leaves the queue with
times 0, 1, 1 - not strictly increasing. -/
theorem frameQueue_not_strictly_sorted :
    tieSession2.frameQueue.map QFrame.time = [0, 1, 1] ∧
    ¬ tieSession2.frameQueue.Chain' (fun a b => a.time < b.time) := by
  have hq : tieSession2.frameQueue.map QFrame.time = [0, 1, 1] := by
    norm_num [tieSession2, tieSession1, tieBatch1, tieBatch2, driverApplyResponse,
      handleBlendshapeResponse, applyBlendshapeFrames, createSession, prepareFrames,
      normalizeBlendshapeValues, preparedSortKey, jsSortBy, stableInsert, bumpTimes,
      DEFAULT_FRAME_DELTA_SEC, FRAME_LATE_DROP_SEC, normalizeFrameValues,
      enqueueSessionFrames, scheduleFramePlayback, cloneBlendshapeMap,
      collapseNearDuplicates, List.filter, List.enum]
  refine ⟨hq, fun hchain => ?_⟩
  rw [← List.chain'_map (f := QFrame.time) (R := (· < ·))] at hchain
  rw [hq] at hchain
  norm_num [List.chain'_cons] at hchain

/-- For a session whose queue holds one frame with a computed playback time,
a tick emits it exactly when it is due within the early tolerance, not late
beyond the drop window, and the minimum spacing since the last emission has
elapsed; on emission it becomes the current weights. -/
theorem pump_single_frame_characterization (tm p le t : ℚ)
    (vals cur : List (String × ℚ)) :
    ((((pumpSessionFrames
        { createSession with
          currentValues := cur
          frameQueue := [⟨tm, vals, some p⟩]
          lastEmitAudioTime := some le } t).frameQueue = []) ∧
      ((pumpSessionFrames
        { createSession with
          currentValues := cur
          frameQueue := [⟨tm, vals, some p⟩]
          lastEmitAudioTime := some le } t).lateDropsTotal = 0))
      ↔ (p ≤ t + FRAME_EARLY_TOLERANCE_SEC ∧ t - p ≤ FRAME_LATE_DROP_SEC ∧
         FRAME_MIN_SPACING_SEC ≤ t - le)) ∧
    ((p ≤ t + FRAME_EARLY_TOLERANCE_SEC ∧ t - p ≤ FRAME_LATE_DROP_SEC ∧
      FRAME_MIN_SPACING_SEC ≤ t - le) →
      (pumpSessionFrames
        { createSession with
          currentValues := cur
          frameQueue := [⟨tm, vals, some p⟩]
          lastEmitAudioTime := some le } t).currentValues = vals ∧
      (pumpSessionFrames
        { createSession with
          currentValues := cur
          frameQueue := [⟨tm, vals, some p⟩]
          lastEmitAudioTime := some le } t).lastEmitAudioTime = some t) := by
  simp only [pumpSessionFrames, pumpLoop, createSession, Option.isNone_some,
    Bool.false_eq_true, if_false, decide_eq_true_eq]
  by_cases h1 : t + FRAME_EARLY_TOLERANCE_SEC < p
  · rw [if_pos h1]
    constructor
    · simp only [List.cons_ne_nil, false_and, false_iff]
      intro hc
      linarith [hc.1]
    · intro hc
      linarith [hc.1]
  · rw [if_neg h1]
    by_cases h2 : FRAME_LATE_DROP_SEC < t - p
    · rw [if_pos h2]
      simp only [pumpLoop]
      constructor
      · simp only [true_and]
        constructor
        · intro hc; omega
        · intro hc; linarith [hc.2.1]
      · intro hc
        linarith [hc.2.1]
    · rw [if_neg h2]
      by_cases h3 : t - le < FRAME_MIN_SPACING_SEC
      · rw [if_pos h3]
        constructor
        · simp only [List.cons_ne_nil, false_and, false_iff]
          intro hc
          linarith [hc.2.2]
        · intro hc
          linarith [hc.2.2]
      · rw [if_neg h3]
        constructor
        · simp only [true_and]
          constructor
          · intro _
            exact ⟨by linarith, by linarith, by linarith⟩
          · intro _; trivial
        · intro _
          constructor <;> trivial

/-- A queue head whose playback time is more than the late-drop window behind
the clock is removed without emission, the late-drop counter gains one, and
the pump continues on the rest of the queue. -/
theorem pump_drops_late_head (s : Session) (f : QFrame) (rest : List QFrame)
    (p t : ℚ) (hq : s.frameQueue = f :: rest) (hp : f.playAt = some p)
    (hlate : FRAME_LATE_DROP_SEC < t - p) :
    pumpSessionFrames s t =
      pumpLoop {s with lateDropsTotal := s.lateDropsTotal + 1} t rest := by
  rw [pumpSessionFrames, hq, pumpLoop]
  simp only [hp, Option.isNone_some, Bool.false_eq_true, if_false]
  rw [if_neg (by
    rw [FRAME_LATE_DROP_SEC] at hlate
    rw [FRAME_EARLY_TOLERANCE_SEC]
    intro hc
    linarith), if_pos hlate, hq]

/-- C7 (amended): in append mode (the session already has frames), processing
a drain response leaves the current weights unchanged whenever all their
entries are positive (in general the merge re-filters them through
`cloneBlendshapeMap`). -/
theorem apply_append_preserves_currentValues (s : Session) (fr : NFrame)
    (fs : List NFrame) (data : Option (List RawFrame)) (b : Option ℚ)
    (hf : s.frames = some (fr :: fs))
    (hpos : ∀ kv ∈ s.currentValues, 0 < kv.2) :
    ((applyBlendshapeFrames s data true b).1).currentValues = s.currentValues := by
  have hclone : cloneBlendshapeMap s.currentValues = s.currentValues := by
    rw [cloneBlendshapeMap, List.filter_eq_self]
    intro a ha
    simpa using hpos a ha
  cases data with
  | none => simp [applyBlendshapeFrames]
  | some frames =>
    simp only [applyBlendshapeFrames]
    by_cases hp : (prepareFrames frames).isEmpty
    · rw [if_pos hp, if_pos trivial]
    · rw [if_neg hp]
      have hmerge : (true && (match s.frames with
          | some l => !l.isEmpty
          | none => false)) = true := by
        rw [hf]
        simp
      rw [if_pos hmerge]
      exact hclone

theorem prepareFrames_cons_ne (rf : RawFrame) (rfs : List RawFrame) :
    (prepareFrames (rf :: rfs)).isEmpty = false := by
  simp [prepareFrames, List.enum_cons]

theorem batchObservedAdvance_nonneg (frames : List RawFrame) :
    0 ≤ batchObservedAdvance frames := by
  rw [batchObservedAdvance]
  have h0 : (0 : ℚ) ≤ (batchBumpedLocalTimes frames).foldl (fun m t => max m t) 0 :=
    init_le_foldl_max _ 0
  by_cases hl : 1 < (batchBumpedLocalTimes frames).length
  · rw [if_pos hl]; exact h0
  · rw [if_neg hl]
    exact le_trans h0 (le_max_left _ _)

/-- The coverage watermark after a non-empty batch equals the maximum of the
resolved base time and the previous watermark, plus the batch's observed
advance (its largest positive bumped local time, at least one frame step for
single-frame batches). -/
theorem framesCoveredSec_update (s : Session) (rf : RawFrame) (rfs : List RawFrame)
    (append : Bool) (bOpt : Option ℚ) :
    ((applyBlendshapeFrames s (some (rf :: rfs)) append bOpt).1).framesCoveredSec =
      max (resolveBaseTimeSec s append bOpt) s.framesCoveredSec +
        batchObservedAdvance (rf :: rfs) := by
  rw [resolveBaseTimeSec.eq_def]
  simp only [applyBlendshapeFrames]
  rw [if_neg (by rw [prepareFrames_cons_ne]; intro hc; exact absurd hc (by simp))]
  set base : ℚ := (match bOpt with
    | some b => max 0 b
    | none => max 0 (if append then s.framesCoveredSec else 0)) with hbase
  set timed := bumpTimes (jsSortBy preparedSortKey (prepareFrames (rf :: rfs))) none
    DEFAULT_FRAME_DELTA_SEC with htimed
  have htne : timed ≠ [] := by
    intro hc
    have hlen : timed.length = (prepareFrames (rf :: rfs)).length := by
      rw [htimed, bumpTimes_length, jsSortBy_length]
    rw [hc] at hlen
    simp only [List.length_nil] at hlen
    have : (prepareFrames (rf :: rfs)).isEmpty = true := by
      rw [List.isEmpty_iff_length_eq_zero]
      omega
    rw [prepareFrames_cons_ne] at this
    exact absurd this (by simp)
  have hfoldmax : ∀ a : ℚ, timed.foldl (fun m et => if m < et.2 then et.2 else m) a =
      (timed.map (·.2)).foldl (fun m t => max m t) a := by
    intro a
    rw [List.foldl_map]
    congr 1
    funext m et
    exact ite_lt_eq_max m et.2
  obtain ⟨etl, hetl⟩ : ∃ etl, timed.getLast? = some etl := by
    cases h : timed.getLast? with
    | none => exact absurd (List.getLast?_eq_none_iff.mp h) htne
    | some etl => exact ⟨etl, rfl⟩
  have hlastmap : (timed.map fun et =>
      ({ time := base + et.2, localTime := et.2,
         values := normalizeFrameValues et.1.blendShapes } : NFrame)).getLast?
      = some { time := base + etl.2, localTime := etl.2,
               values := normalizeFrameValues etl.1.blendShapes } := by
    rw [List.getLast?_map, hetl]
    rfl
  have hmaxbound : max 0 etl.2 ≤ (timed.map (·.2)).foldl (fun m t => max m t) 0 := by
    apply max_le
    · exact init_le_foldl_max _ 0
    · exact mem_le_foldl_max _ 0 etl.2
        (List.mem_map_of_mem _ (getLast?_mem' _ _ hetl))
  have hlenmap : ∀ (f : Prepared × ℚ → NFrame), (timed.map f).length = (timed.map (·.2)).length := by
    intro f
    simp
  -- both merge branches assign the same framesCoveredSec
  by_cases hm : (append && (match s.frames with
      | some l => !l.isEmpty
      | none => false)) = true
  · rw [if_pos hm]
    simp only [hlastmap, Option.getD_some]
    rw [hfoldmax]
    have hsub : base + etl.2 - base = etl.2 := by ring
    rw [hsub]
    simp only [max_eq_left hmaxbound, hlenmap]
    rw [batchObservedAdvance, batchBumpedLocalTimes, ← htimed]
  · rw [if_neg hm]
    simp only [hlastmap, Option.getD_some]
    rw [hfoldmax]
    have hsub : base + etl.2 - base = etl.2 := by ring
    rw [hsub]
    simp only [max_eq_left hmaxbound, hlenmap]
    rw [batchObservedAdvance, batchBumpedLocalTimes, ← htimed]

theorem prepareFrames_length (l : List RawFrame) :
    (prepareFrames l).length = l.length := by
  simp [prepareFrames]

theorem batchObservedAdvance_single (rf : RawFrame) :
    DEFAULT_FRAME_DELTA_SEC ≤ batchObservedAdvance [rf] := by
  rw [batchObservedAdvance]
  have hlen : (batchBumpedLocalTimes [rf]).length = 1 := by
    rw [batchBumpedLocalTimes]
    simp [bumpTimes_length, jsSortBy_length, prepareFrames_length]
  rw [if_neg (by omega)]
  exact le_max_right _ _

/-- C6 (amended): after any non-empty batch, `framesCoveredSec` becomes
`max(baseTimeSec, previous) + observedAdvance`; it never decreases, and a
single-frame batch advances it by at least one frame step - but a multi-frame
batch whose bumped local times are all non-positive leaves it unchanged. -/
theorem framesCoveredSec_advance (s : Session) (rf : RawFrame) (rfs : List RawFrame)
    (append : Bool) (bOpt : Option ℚ) :
    ((applyBlendshapeFrames s (some (rf :: rfs)) append bOpt).1).framesCoveredSec =
      max (resolveBaseTimeSec s append bOpt) s.framesCoveredSec +
        batchObservedAdvance (rf :: rfs) ∧
    s.framesCoveredSec ≤
      ((applyBlendshapeFrames s (some (rf :: rfs)) append bOpt).1).framesCoveredSec ∧
    (rfs = [] →
      s.framesCoveredSec + DEFAULT_FRAME_DELTA_SEC ≤
        ((applyBlendshapeFrames s (some (rf :: rfs)) append bOpt).1).framesCoveredSec) := by
  have heq := framesCoveredSec_update s rf rfs append bOpt
  refine ⟨heq, ?_, ?_⟩
  · rw [heq]
    have h1 := batchObservedAdvance_nonneg (rf :: rfs)
    have h2 : s.framesCoveredSec ≤
        max (resolveBaseTimeSec s append bOpt) s.framesCoveredSec := le_max_right _ _
    linarith
  · intro hnil
    subst hnil
    rw [heq]
    have h1 := batchObservedAdvance_single rf
    have h2 : s.framesCoveredSec ≤
        max (resolveBaseTimeSec s append bOpt) s.framesCoveredSec := le_max_right _ _
    linarith

/-! ## The single-flight invariant -/

theorem drainStep_invariant (op : DrainOp) (s : DrainState)
    (h : s.outstanding = if s.pending.isSome then 1 else 0) :
    (drainStep op s).outstanding =
      if (drainStep op s).pending.isSome then 1 else 0 := by
  obtain ⟨pend, out⟩ := s
  cases op with
  | drain a i f p =>
    simp only [drainStep, drainToA2F]
    split_ifs <;> simp_all
  | complete a i f p =>
    simp only [drainStep, completeRequest]
    cases pend with
    | none => simpa using h
    | some k =>
      cases k with
      | drain =>
        simp only [drainToA2F]
        simp only [Option.isSome_some, if_pos] at h
        split_ifs <;> simp_all
      | finalize => simp_all
  | finalize a hA =>
    simp only [drainStep, finalizeSession]
    split_ifs <;> simp_all

theorem runDrainOps_invariant (ops : List DrainOp) :
    (runDrainOps ops).outstanding =
      if (runDrainOps ops).pending.isSome then 1 else 0 := by
  rw [runDrainOps]
  suffices hstep : ∀ (s : DrainState), s.outstanding = (if s.pending.isSome then 1 else 0) →
      (ops.foldl (fun s op => drainStep op s) s).outstanding =
        if (ops.foldl (fun s op => drainStep op s) s).pending.isSome then 1 else 0 from
    hstep initDrainState rfl
  induction ops with
  | nil => intro s hs; exact hs
  | cons op ops ih =>
    intro s hs
    exact ih _ (drainStep_invariant op s hs)

/-- C2: single-flight per session. While a request is pending, `drainToA2F`
returns without issuing a new one and `finalizeSession` returns without
starting one; consequently, under any interleaving of drain attempts,
request completions, finalize attempts and fallback-timer firings, at most
one request is ever outstanding. -/
theorem drain_single_flight :
    (∀ (a i f p : Bool) (s : DrainState), s.pending.isSome = true →
      drainToA2F a i f p s = s) ∧
    (∀ (a h : Bool) (s : DrainState), s.pending.isSome = true →
      finalizeSession a h s = s) ∧
    (∀ ops : List DrainOp, (runDrainOps ops).outstanding ≤ 1) := by
  refine ⟨?_, ?_, ?_⟩
  · intro a i f p s hpend
    simp [drainToA2F, hpend]
  · intro a h s hpend
    simp [finalizeSession, hpend]
  · intro ops
    rw [runDrainOps_invariant ops]
    split_ifs <;> omega

/-- C2 witness: with a drain request pending, a forced drain and a finalize
both leave the state untouched. -/
theorem drain_single_flight_witness :
    (⟨some .drain, 1⟩ : DrainState).pending.isSome = true ∧
    drainToA2F true true true true ⟨some .drain, 1⟩ = ⟨some .drain, 1⟩ ∧
    finalizeSession true true ⟨some .drain, 1⟩ = ⟨some .drain, 1⟩ :=
  ⟨rfl, drain_single_flight.1 true true true true ⟨some .drain, 1⟩ rfl,
   drain_single_flight.2.1 true true ⟨some .drain, 1⟩ rfl⟩

/-! ## Audio normalizer theorems -/

/-- C8 (amended): an empty buffer normalizes to an empty PCM16 result under
any sample rate, and a non-finite sample rate falls back to the 16 kHz
target - both in `ensurePcm16Mono16k` (which then processes a non-empty
buffer normally) and in `resampleFloat32Mono` (which returns the input
unchanged); every path is total, so no error is raised. -/
theorem audio_degenerate_parts :
    (∀ r, (ensurePcm16Mono16k [] r).bytes = []) ∧
    (∀ bytes, ensurePcm16Mono16k bytes none =
      ensurePcm16Mono16k bytes (some PCM16_TARGET_SAMPLE_RATE)) ∧
    (∀ (src : List ℚ) (t : ℚ), resampleFloat32Mono src none t =
      if src.isEmpty then [] else src) := by
  refine ⟨?_, ?_, ?_⟩
  · intro r
    simp [ensurePcm16Mono16k]
  · intro bytes
    have h16 : (0 : ℚ) < PCM16_TARGET_SAMPLE_RATE := by
      rw [PCM16_TARGET_SAMPLE_RATE]; norm_num
    simp [ensurePcm16Mono16k, if_pos h16]
  · intro src t
    by_cases h : src.isEmpty
    · simp [resampleFloat32Mono, h]
    · simp [resampleFloat32Mono, h]

/-- C8 (counterexample): a two-byte buffer with a non-finite sample rate
normalizes to a non-empty result (one int16 sample), not the empty buffer
the claim requires for every degenerate input. -/
theorem audio_nonfinite_rate_nonempty :
    (ensurePcm16Mono16k degenerateRateBytes none).bytes = [mkByte 255, mkByte 0] ∧
    (ensurePcm16Mono16k degenerateRateBytes none).bytes ≠ [] := by
  have hl : (ensurePcm16Mono16k degenerateRateBytes none).bytes = [mkByte 255, mkByte 0] := by
    norm_num [ensurePcm16Mono16k, degenerateRateBytes, pcm16BytesToFloat32Mono,
      bytePairsToSamples, pcm16ToSample, resampleFloat32Mono, float32ToPcm16Mono16k,
      int16ToBytes, ratTrunc, mkByte, PCM16_TARGET_SAMPLE_RATE, List.flatMap,
      Int.floor_eq_iff]
    decide
  exact ⟨hl, by rw [hl]; simp⟩

/-! ## Base64 codec lemmas -/

theorem b64Val_b64Chr : ∀ n, n < 64 → b64Val (b64Chr n) = some n := by decide

theorem b64Chr_mem (n : ℕ) : b64Chr n ∈ b64Alphabet := by
  rw [b64Chr]
  by_cases h : n < b64Alphabet.length
  · rw [List.getD_eq_getElem _ _ h]
    exact List.getElem_mem h
  · rw [List.getD_eq_default _ _ (le_of_not_lt h)]
    decide

theorem alphabet_char_props :
    ∀ c ∈ b64Alphabet,
      jsIsWs c = false ∧ c.toNat ≠ 0 ∧ c.toNat ≠ 45 ∧ c.toNat ≠ 95 ∧
      isB64Char c = true ∧ c.toNat ≠ 61 ∧ c ≠ ',' ∧ c.toLower ≠ ':' := by
  decide

theorem eq_props :
    jsIsWs '=' = false ∧ ('=' : Char).toNat ≠ 0 ∧ ('=' : Char).toNat ≠ 45 ∧
    ('=' : Char).toNat ≠ 95 ∧ isB64Char '=' = true ∧ ('=' : Char) ≠ ',' ∧
    ('=' : Char).toLower ≠ ':' := by
  decide

theorem b64Chr_toNat_ne_61 (n : ℕ) : (b64Chr n).toNat ≠ 61 :=
  (alphabet_char_props _ (b64Chr_mem n)).2.2.2.2.2.1

theorem encode_chars : ∀ (b : List Byte), ∀ c ∈ encodeB64 b, c ∈ b64Alphabet ∨ c = '='
  | [] => by simp [encodeB64]
  | [b1] => by
    intro c hc
    rw [encodeB64] at hc
    simp only [List.mem_cons, List.not_mem_nil, or_false, or_self] at hc
    rcases hc with h | h | h
    · exact Or.inl (h ▸ b64Chr_mem _)
    · exact Or.inl (h ▸ b64Chr_mem _)
    · exact Or.inr h
  | [b1, b2] => by
    intro c hc
    rw [encodeB64] at hc
    simp only [List.mem_cons, List.not_mem_nil, or_false, or_self] at hc
    rcases hc with h | h | h | h
    · exact Or.inl (h ▸ b64Chr_mem _)
    · exact Or.inl (h ▸ b64Chr_mem _)
    · exact Or.inl (h ▸ b64Chr_mem _)
    · exact Or.inr h
  | b1 :: b2 :: b3 :: rest => by
    intro c hc
    rw [encodeB64] at hc
    simp only [List.mem_cons, List.not_mem_nil, or_false] at hc
    rcases hc with h | h | h | h | h
    · exact Or.inl (h ▸ b64Chr_mem _)
    · exact Or.inl (h ▸ b64Chr_mem _)
    · exact Or.inl (h ▸ b64Chr_mem _)
    · exact Or.inl (h ▸ b64Chr_mem _)
    · exact encode_chars rest c h

theorem encodeB64_length : ∀ b : List Byte,
    (encodeB64 b).length = 4 * ((b.length + 2) / 3)
  | [] => rfl
  | [b1] => by simp [encodeB64]
  | [b1, b2] => by simp [encodeB64]
  | b1 :: b2 :: b3 :: rest => by
    rw [encodeB64]
    simp only [List.length_cons, encodeB64_length rest]
    omega

theorem isPrefixOf_append_longer :
    ∀ (x l₁ l₂ : List Char), x.length ≤ l₁.length →
      x.isPrefixOf (l₁ ++ l₂) = x.isPrefixOf l₁
  | [], _, _, _ => by simp [List.isPrefixOf]
  | a :: xs, [], l₂, h => by simp at h
  | a :: xs, b :: t, l₂, h => by
    simp only [List.cons_append, List.isPrefixOf]
    rw [show t.append l₂ = t ++ l₂ from rfl,
        isPrefixOf_append_longer xs t l₂ (by simpa using h)]

theorem isSuffixOf_append_longer (x l₁ l₂ : List Char) (h : x.length ≤ l₂.length) :
    x.isSuffixOf (l₁ ++ l₂) = x.isSuffixOf l₂ := by
  rw [List.isSuffixOf, List.isSuffixOf, List.reverse_append]
  exact isPrefixOf_append_longer _ _ _ (by simpa using h)

theorem b64Chr_beq_eq_false (n : ℕ) : (('=' : Char) == b64Chr n) = false := by
  rw [beq_eq_false_iff_ne]
  intro h
  have := b64Chr_toNat_ne_61 n
  rw [← h] at this
  exact this rfl

theorem pad_spec : ∀ b : List Byte, b ≠ [] →
    ((if ['=', '='].isSuffixOf (encodeB64 b) then (2 : ℤ)
      else if ['='].isSuffixOf (encodeB64 b) then 1 else 0) =
     if b.length % 3 = 1 then 2 else if b.length % 3 = 2 then 1 else 0)
  | [], h => absurd rfl h
  | [b1], _ => by
    rw [encodeB64]
    norm_num [List.isSuffixOf, List.isPrefixOf]
  | [b1, b2], _ => by
    rw [encodeB64]
    norm_num [List.isSuffixOf, List.isPrefixOf, b64Chr_beq_eq_false]
  | b1 :: b2 :: b3 :: rest, _ => by
    rw [encodeB64]
    by_cases hr : rest = []
    · subst hr
      norm_num [encodeB64, List.isSuffixOf, List.isPrefixOf, b64Chr_beq_eq_false]
    · have h4 : 4 ≤ (encodeB64 rest).length := by
        rw [encodeB64_length]
        have : 1 ≤ rest.length := by
          cases rest with
          | nil => exact absurd rfl hr
          | cons a l => simp
        omega
      have happ : (b64Chr (b1 / 4) :: b64Chr (b1 % 4 * 16 + b2 / 16) ::
          b64Chr (b2 % 16 * 4 + b3 / 64) :: b64Chr (b3 % 64) :: encodeB64 rest) =
          [b64Chr (b1 / 4), b64Chr (b1 % 4 * 16 + b2 / 16),
           b64Chr (b2 % 16 * 4 + b3 / 64), b64Chr (b3 % 64)] ++ encodeB64 rest := rfl
      rw [happ, isSuffixOf_append_longer _ _ _ (by simpa using by omega),
          isSuffixOf_append_longer _ _ _ (by simpa using by omega)]
      rw [pad_spec rest hr]
      have hmod : (b1 :: b2 :: b3 :: rest).length % 3 = rest.length % 3 := by
        simp only [List.length_cons]
        omega
      rw [hmod]

theorem decodeLoop_chunk (b1 b2 b3 : Byte) (rest : List Char) (cap : ℕ) :
    decodeB64Loop (b64Chr (b1 / 4) :: b64Chr (b1 % 4 * 16 + b2 / 16) ::
      b64Chr (b2 % 16 * 4 + b3 / 64) :: b64Chr (b3 % 64) :: rest) 0 0 (cap + 3) =
    b1 :: b2 :: b3 :: decodeB64Loop rest 0 0 cap := by
  have hb1 := b1.isLt
  have hb2 := b2.isLt
  have hb3 := b3.isLt
  rw [decodeB64Loop, if_neg (b64Chr_toNat_ne_61 _),
      b64Val_b64Chr _ (by omega)]
  simp only [if_neg (by norm_num : ¬(8 ≤ 0 + 6))]
  rw [decodeB64Loop, if_neg (b64Chr_toNat_ne_61 _),
      b64Val_b64Chr _ (by omega)]
  simp only [if_pos (by norm_num : (8:ℕ) ≤ 0 + 6 + 6),
    if_neg (by omega : ¬(cap + 3 = 0))]
  rw [decodeB64Loop, if_neg (b64Chr_toNat_ne_61 _),
      b64Val_b64Chr _ (by omega)]
  simp only [show (0 + 6 + 6 - 8) + 6 = 10 by norm_num,
    if_pos (by norm_num : (8:ℕ) ≤ 10), if_neg (by omega : ¬(cap + 3 - 1 = 0))]
  rw [decodeB64Loop, if_neg (b64Chr_toNat_ne_61 _),
      b64Val_b64Chr _ (by omega)]
  simp only [show (10 - 8) + 6 = 8 by norm_num,
    if_pos (by norm_num : (8:ℕ) ≤ 8), if_neg (by omega : ¬(cap + 3 - 1 - 1 = 0))]
  congr 1
  · apply Fin.ext
    show _ % 256 = _
    omega
  congr 1
  · apply Fin.ext
    show _ % 256 = _
    omega
  congr 1
  · apply Fin.ext
    show _ % 256 = _
    omega
  congr 1
  omega

theorem decodeLoop_tail1 (b1 : Byte) :
    decodeB64Loop [b64Chr (b1 / 4), b64Chr (b1 % 4 * 16), '=', '='] 0 0 1 = [b1] := by
  have hb1 := b1.isLt
  rw [decodeB64Loop, if_neg (b64Chr_toNat_ne_61 _), b64Val_b64Chr _ (by omega)]
  simp only [if_neg (by norm_num : ¬(8 ≤ 0 + 6))]
  rw [decodeB64Loop, if_neg (b64Chr_toNat_ne_61 _), b64Val_b64Chr _ (by omega)]
  simp only [if_pos (by norm_num : (8:ℕ) ≤ 0 + 6 + 6),
    if_neg (by omega : ¬(1 = 0))]
  rw [decodeB64Loop, if_pos (by decide : ('=' : Char).toNat = 61)]
  congr 1
  apply Fin.ext
  show _ % 256 = _
  omega

theorem decodeLoop_tail2 (b1 b2 : Byte) :
    decodeB64Loop [b64Chr (b1 / 4), b64Chr (b1 % 4 * 16 + b2 / 16),
      b64Chr (b2 % 16 * 4), '='] 0 0 2 = [b1, b2] := by
  have hb1 := b1.isLt
  have hb2 := b2.isLt
  rw [decodeB64Loop, if_neg (b64Chr_toNat_ne_61 _), b64Val_b64Chr _ (by omega)]
  simp only [if_neg (by norm_num : ¬(8 ≤ 0 + 6))]
  rw [decodeB64Loop, if_neg (b64Chr_toNat_ne_61 _), b64Val_b64Chr _ (by omega)]
  simp only [if_pos (by norm_num : (8:ℕ) ≤ 0 + 6 + 6),
    if_neg (by omega : ¬(2 = 0))]
  rw [decodeB64Loop, if_neg (b64Chr_toNat_ne_61 _), b64Val_b64Chr _ (by omega)]
  simp only [show (0 + 6 + 6 - 8) + 6 = 10 by norm_num,
    if_pos (by norm_num : (8:ℕ) ≤ 10), if_neg (by omega : ¬(2 - 1 = 0))]
  rw [decodeB64Loop, if_pos (by decide : ('=' : Char).toNat = 61)]
  congr 1
  · apply Fin.ext
    show _ % 256 = _
    omega
  congr 1
  apply Fin.ext
  show _ % 256 = _
  omega

theorem decodeLoop_encode : ∀ b : List Byte,
    decodeB64Loop (encodeB64 b) 0 0 b.length = b
  | [] => rfl
  | [b1] => by
    rw [encodeB64]
    exact decodeLoop_tail1 b1
  | [b1, b2] => by
    rw [encodeB64]
    exact decodeLoop_tail2 b1 b2
  | b1 :: b2 :: b3 :: rest => by
    rw [encodeB64]
    have hlen : (b1 :: b2 :: b3 :: rest).length = rest.length + 3 := by
      simp only [List.length_cons]
    rw [hlen, decodeLoop_chunk]
    rw [decodeLoop_encode rest]

theorem list_map_id_of {α : Type} (f : α → α) (l : List α)
    (h : ∀ c ∈ l, f c = c) : l.map f = l := by
  induction l with
  | nil => rfl
  | cons a l ih =>
    rw [List.map_cons, h a (by simp), ih (fun c hc => h c (List.mem_cons_of_mem a hc))]

theorem splitAtFirstComma_eq_none (s : List Char) (h : ∀ c ∈ s, c ≠ ',') :
    splitAtFirstComma s = none := by
  induction s with
  | nil => rfl
  | cons c cs ih =>
    rw [splitAtFirstComma, if_neg (h c (by simp)),
        ih (fun d hd => h d (List.mem_cons_of_mem c hd))]

theorem encode_char_props (b : List Byte) :
    ∀ c ∈ encodeB64 b,
      jsIsWs c = false ∧ c.toNat ≠ 0 ∧ c.toNat ≠ 45 ∧ c.toNat ≠ 95 ∧
      isB64Char c = true ∧ c ≠ ',' ∧ c.toLower ≠ ':' := by
  intro c hc
  rcases encode_chars b c hc with h | h
  · have := alphabet_char_props c h
    exact ⟨this.1, this.2.1, this.2.2.1, this.2.2.2.1, this.2.2.2.2.1,
      this.2.2.2.2.2.2.1, this.2.2.2.2.2.2.2⟩
  · subst h
    exact ⟨eq_props.1, eq_props.2.1, eq_props.2.2.1, eq_props.2.2.2.1,
      eq_props.2.2.2.2.1, eq_props.2.2.2.2.2.1, eq_props.2.2.2.2.2.2⟩

theorem normalize_encode (b0 : Byte) (bs : List Byte) :
    normalizeBase64 (uint8ArrayToBase64 (b0 :: bs)) =
      some (uint8ArrayToBase64 (b0 :: bs)) := by
  have hprops := encode_char_props (b0 :: bs)
  have hdata : (uint8ArrayToBase64 (b0 :: bs)).data = encodeB64 (b0 :: bs) := rfl
  have hne : encodeB64 (b0 :: bs) ≠ [] := by
    intro hc
    have := encodeB64_length (b0 :: bs)
    rw [hc] at this
    simp only [List.length_nil, List.length_cons] at this
    omega
  rw [normalizeBase64, hdata]
  rw [jsTrim_of_ws_free _ (fun c hc => (hprops c hc).1)]
  rw [if_neg (by simpa [List.isEmpty_iff] using hne)]
  have hstrip : dataUrlStrip (encodeB64 (b0 :: bs)) = encodeB64 (b0 :: bs) := by
    rw [dataUrlStrip]
    have hnc : splitAtFirstComma (encodeB64 (b0 :: bs)) = none :=
      splitAtFirstComma_eq_none _ (fun c hc => (hprops c hc).2.2.2.2.2.1)
    have hfb : fallbackComma (encodeB64 (b0 :: bs)) = encodeB64 (b0 :: bs) := by
      rw [fallbackComma, hnc]
    rw [if_neg ?hdata5, hfb]
    case hdata5 =>
      intro hcontra
      have hmem : (':' : Char) ∈ lowerAll ((encodeB64 (b0 :: bs)).take 5) := by
        rw [hcontra]
        decide
      rw [lowerAll] at hmem
      obtain ⟨c, hc, hlc⟩ := List.mem_map.mp hmem
      exact (hprops c (List.mem_of_mem_take hc)).2.2.2.2.2.2 hlc
  rw [hstrip]
  dsimp only
  have h1 : List.filter (fun c => !jsIsWs c) (encodeB64 (b0 :: bs)) =
      encodeB64 (b0 :: bs) :=
    List.filter_eq_self.mpr (fun c hc => by simp [(hprops c hc).1])
  rw [h1]
  have h2 : List.filter (fun c => decide (c.toNat ≠ 0)) (encodeB64 (b0 :: bs)) =
      encodeB64 (b0 :: bs) :=
    List.filter_eq_self.mpr (fun c hc => by simp [(hprops c hc).2.1])
  rw [h2]
  have h3 : List.map (fun c => if c.toNat = 45 then '+' else c)
      (encodeB64 (b0 :: bs)) = encodeB64 (b0 :: bs) :=
    list_map_id_of _ _ (fun c hc => if_neg ((hprops c hc).2.2.1))
  rw [h3]
  have h4 : List.map (fun c => if c.toNat = 95 then '/' else c)
      (encodeB64 (b0 :: bs)) = encodeB64 (b0 :: bs) :=
    list_map_id_of _ _ (fun c hc => if_neg ((hprops c hc).2.2.2.1))
  rw [h4]
  have h5 : List.filter isB64Char (encodeB64 (b0 :: bs)) = encodeB64 (b0 :: bs) :=
    List.filter_eq_self.mpr (fun c hc => (hprops c hc).2.2.2.2.1)
  rw [h5]
  have hmod : (encodeB64 (b0 :: bs)).length % 4 = 0 := by
    rw [encodeB64_length]
    omega
  rw [if_neg (by omega), if_pos hmod]
  rfl

/-- C10: the driver base64 codec round-trips: decoding (normalize followed by
the table decoder) the encoding of any non-empty byte array returns exactly
those bytes. -/
theorem base64_roundtrip (b0 : Byte) (bs : List Byte) :
    (normalizeBase64 (uint8ArrayToBase64 (b0 :: bs))).map
      decodeNormalizedBase64ToUint8Array = some (b0 :: bs) := by
  rw [normalize_encode b0 bs, Option.map_some']
  congr 1
  have hdata : (uint8ArrayToBase64 (b0 :: bs)).data = encodeB64 (b0 :: bs) := rfl
  have hne : encodeB64 (b0 :: bs) ≠ [] := by
    intro hc
    have := encodeB64_length (b0 :: bs)
    rw [hc] at this
    simp only [List.length_nil, List.length_cons] at this
    omega
  rw [decodeNormalizedBase64ToUint8Array, hdata]
  dsimp only
  rw [if_neg (by simpa [List.isEmpty_iff] using hne)]
  rw [pad_spec _ (by simp)]
  have hlen := encodeB64_length (b0 :: bs)
  have hcap : ((((encodeB64 (b0 :: bs)).length / 4 : ℕ) : ℤ) * 3 -
      (if (b0 :: bs).length % 3 = 1 then (2:ℤ)
       else if (b0 :: bs).length % 3 = 2 then 1 else 0)).toNat =
      (b0 :: bs).length := by
    rw [hlen]
    have h4 : (4 * (((b0 :: bs).length + 2) / 3)) / 4 = ((b0 :: bs).length + 2) / 3 := by
      omega
    rw [h4]
    omega
  rw [hcap]
  exact decodeLoop_encode (b0 :: bs)

/-! ## Concrete evaluation lemmas -/

theorem alias_jawOpen : getBlendshapeAliases "jawOpen" = ["jawOpen", "jawopen"] := by decide

theorem alias_JawOpen :
    getBlendshapeAliases "JawOpen" = ["JawOpen", "jawOpen", "jawopen"] := by decide

theorem canon_jawOpen : canonicalizeBlendshapeName "jawOpen" = some "jawOpen" := by decide

theorem canon_jawopen : canonicalizeBlendshapeName "jawopen" = some "jawOpen" := by decide

theorem canon_JawOpen : canonicalizeBlendshapeName "JawOpen" = some "jawOpen" := by decide

theorem dk_jawOpen : getBlendshapeDedupeKey "jawOpen" = some "jawopen".data := by decide

theorem nbv_jawOpen (v : ℚ) :
    normalizeBlendshapeValues [("jawOpen", some v)] = [("jawOpen", v), ("jawopen", v)] := by
  simp [normalizeBlendshapeValues, alias_jawOpen]

theorem nbv_JawOpen (v : ℚ) :
    normalizeBlendshapeValues [("JawOpen", some v)] =
      [("JawOpen", v), ("jawOpen", v), ("jawopen", v)] := by
  simp [normalizeBlendshapeValues, alias_JawOpen]

theorem nfv_half :
    normalizeFrameValues [("jawOpen", 1/2), ("jawopen", 1/2)] = [("jawOpen", 1/2)] := by
  norm_num [normalizeFrameValues, clamp01, canon_jawOpen, canon_jawopen, dk_jawOpen,
    jsMapGet, jsMapSet, jsMapDelete, List.find?, List.cons_ne_nil]

theorem nfv_nine :
    normalizeFrameValues [("JawOpen", 9/10), ("jawOpen", 9/10), ("jawopen", 9/10)] =
      [("jawOpen", 9/10)] := by
  norm_num [normalizeFrameValues, clamp01, canon_jawOpen, canon_jawopen, canon_JawOpen,
    dk_jawOpen, jsMapGet, jsMapSet, jsMapDelete, List.find?, List.cons_ne_nil]

/-- Evaluation of Scenario B: what the fresh-session batch with the same key
in two casings at timestamp 0 actually produces. -/
theorem scenarioB_queue_eval :
    scenarioBSession.frameQueue.map (fun f => (f.time, f.values)) =
      [(0, [("jawOpen", 1/2)]), (1/30, [("jawOpen", 9/10)])] := by
  norm_num [scenarioBSession, scenarioBResponse, driverApplyResponse,
    handleBlendshapeResponse, applyBlendshapeFrames, createSession, prepareFrames,
    nbv_jawOpen, nbv_JawOpen, preparedSortKey, jsSortBy, stableInsert, bumpTimes,
    DEFAULT_FRAME_DELTA_SEC, FRAME_LATE_DROP_SEC, nfv_half, nfv_nine,
    enqueueSessionFrames, scheduleFramePlayback, cloneBlendshapeMap,
    List.filter, List.enum]

/-- C5 (amended): the Scenario B batch yields a queue of exactly two frames -
the first at time 0 with weights jawOpen 0.5, the second at the bumped time
1/30 with jawOpen 0.9; within each frame the differently-cased keys collapse
to the single canonical jawOpen entry. -/
theorem scenarioB_two_frames :
    scenarioBSession.frameQueue.map (fun f => (f.time, f.values)) =
      [(0, [("jawOpen", 1/2)]), (1/30, [("jawOpen", 9/10)])] ∧
    scenarioBSession.frameQueue.length = 2 := by
  refine ⟨scenarioB_queue_eval, ?_⟩
  have := congrArg List.length scenarioB_queue_eval
  simpa using this

/-- C5 (counterexample): the Scenario B queue does not contain exactly one
frame - the tie at timestamp 0 is bumped apart, not merged, so two frames
are queued. -/
theorem scenarioB_not_one_frame :
    scenarioBSession.frameQueue.length ≠ 1 := by
  have := congrArg List.length scenarioB_queue_eval
  simp only [List.length_map] at this
  rw [this]
  simp

/-- C6 (counterexample): an appended batch with slightly negative service
timestamps is accepted (the queue grows from 2 to 4 frames; its frames land
at 0.95 and 0.96, above the 0.9 late-drop threshold) yet `framesCoveredSec`
stays exactly 1: it does not strictly increase on every non-empty accepted
batch. -/
theorem coverage_not_strictly_increasing :
    coverageSession2.framesCoveredSec = coverageSession1.framesCoveredSec ∧
    coverageSession1.framesCoveredSec = 1 ∧
    coverageSession1.frameQueue.length = 2 ∧
    coverageSession2.frameQueue.length = 4 := by
  refine ⟨?_, ?_, ?_, ?_⟩ <;>
  norm_num [coverageSession2, coverageSession1, coverageBatch1, coverageBatch2,
    driverApplyResponse, handleBlendshapeResponse, applyBlendshapeFrames,
    createSession, prepareFrames, normalizeBlendshapeValues, preparedSortKey,
    jsSortBy, stableInsert, bumpTimes, DEFAULT_FRAME_DELTA_SEC, FRAME_LATE_DROP_SEC,
    normalizeFrameValues, enqueueSessionFrames, scheduleFramePlayback,
    cloneBlendshapeMap, collapseNearDuplicates, List.filter, List.enum]

/-- C7 (counterexample): in replace mode (a fresh session's first batch) the
drain-response path itself sets `currentValues` to the first frame's weight
map, so `currentWeights` is not only mutated by the playback scheduler. -/
theorem replace_mode_sets_currentValues :
    ((applyBlendshapeFrames createSession (some replaceBatch) false none).1).currentValues =
      [("jawOpen", 9/10)] ∧
    createSession.currentValues = [] ∧
    ((applyBlendshapeFrames createSession (some replaceBatch) false none).1).currentValues ≠
      createSession.currentValues := by
  have h1 : ((applyBlendshapeFrames createSession (some replaceBatch) false none).1).currentValues =
      [("jawOpen", 9/10)] := by
    norm_num [replaceBatch, applyBlendshapeFrames, createSession, prepareFrames,
      nbv_jawOpen, preparedSortKey, jsSortBy, stableInsert, bumpTimes,
      DEFAULT_FRAME_DELTA_SEC, normalizeFrameValues, clamp01, canon_jawOpen,
      canon_jawopen, dk_jawOpen, jsMapGet, jsMapSet, jsMapDelete, List.find?,
      List.cons_ne_nil, cloneBlendshapeMap, List.filter, List.enum]
  refine ⟨h1, rfl, ?_⟩
  rw [h1]
  simp [createSession]

/-- Evaluation of Scenario C: with the anchor at `audio0 = 10`, `frame0 = 0`
and one frame at local 0.5, a tick at 10.6 emits it (it becomes the current
weights, nothing is counted late) and a tick at 10.4 leaves it queued. -/
theorem scenarioC_check :
    (pumpSessionFrames scenarioCSession (106/10)).frameQueue = [] ∧
    (pumpSessionFrames scenarioCSession (106/10)).currentValues = [("jawOpen", 1)] ∧
    (pumpSessionFrames scenarioCSession (106/10)).lateDropsTotal = 0 ∧
    (pumpSessionFrames scenarioCSession (104/10)).frameQueue = scenarioCSession.frameQueue := by
  refine ⟨?_, ?_, ?_, ?_⟩ <;>
  norm_num [scenarioCSession, pumpSessionFrames, pumpLoop, setPlaybackAnchor,
    enqueueSessionFrames, createSession, jsSortBy, stableInsert, scheduleFramePlayback,
    FRAME_EARLY_TOLERANCE_SEC, FRAME_LATE_DROP_SEC, FRAME_MIN_SPACING_SEC,
    DEFAULT_FRAME_DELTA_SEC]

/-- Evaluation of Scenario D: with the anchor at `audio0 = 0` and one frame
at `playAt = 0`, a tick at 0.3 drops the frame without emission and the
late-drop counter goes from 0 to exactly 1. -/
theorem scenarioD_check :
    (pumpSessionFrames scenarioDSession (3/10)).frameQueue = [] ∧
    (pumpSessionFrames scenarioDSession (3/10)).currentValues =
      scenarioDSession.currentValues ∧
    scenarioDSession.lateDropsTotal = 0 ∧
    (pumpSessionFrames scenarioDSession (3/10)).lateDropsTotal = 1 := by
  refine ⟨?_, ?_, ?_, ?_⟩ <;>
  norm_num [scenarioDSession, pumpSessionFrames, pumpLoop, setPlaybackAnchor,
    enqueueSessionFrames, createSession, jsSortBy, stableInsert, scheduleFramePlayback,
    FRAME_EARLY_TOLERANCE_SEC, FRAME_LATE_DROP_SEC, FRAME_MIN_SPACING_SEC,
    DEFAULT_FRAME_DELTA_SEC]

/-! ## Claim theorems for the playback scheduler -/

/-- C3: on a tick at audio-clock time `t`, a queued head frame with computed
playback time `playAt` is emitted (popped and made the current weights)
exactly when `playAt ≤ t + 5 ms`, `t - playAt ≤ 0.1 s`, and at least `1/30 s`
has passed since the last emission; concretely, with the anchor at
`audio0 = 10`, `frame0 = 0` and a queued frame at local time `0.5`, a tick at
`t = 10.6` emits the frame and a tick at `t = 10.4` leaves it queued. -/
theorem head_emitted_exactly_when :
    (∀ (tm p le t : ℚ) (vals cur : List (String × ℚ)),
      ((((pumpSessionFrames
          { createSession with
            currentValues := cur
            frameQueue := [⟨tm, vals, some p⟩]
            lastEmitAudioTime := some le } t).frameQueue = []) ∧
        ((pumpSessionFrames
          { createSession with
            currentValues := cur
            frameQueue := [⟨tm, vals, some p⟩]
            lastEmitAudioTime := some le } t).lateDropsTotal = 0))
        ↔ (p ≤ t + FRAME_EARLY_TOLERANCE_SEC ∧ t - p ≤ FRAME_LATE_DROP_SEC ∧
           FRAME_MIN_SPACING_SEC ≤ t - le)) ∧
      ((p ≤ t + FRAME_EARLY_TOLERANCE_SEC ∧ t - p ≤ FRAME_LATE_DROP_SEC ∧
        FRAME_MIN_SPACING_SEC ≤ t - le) →
        (pumpSessionFrames
          { createSession with
            currentValues := cur
            frameQueue := [⟨tm, vals, some p⟩]
            lastEmitAudioTime := some le } t).currentValues = vals ∧
        (pumpSessionFrames
          { createSession with
            currentValues := cur
            frameQueue := [⟨tm, vals, some p⟩]
            lastEmitAudioTime := some le } t).lastEmitAudioTime = some t)) ∧
    ((pumpSessionFrames scenarioCSession (106/10)).frameQueue = [] ∧
     (pumpSessionFrames scenarioCSession (106/10)).currentValues = [("jawOpen", 1)] ∧
     (pumpSessionFrames scenarioCSession (106/10)).lateDropsTotal = 0 ∧
     (pumpSessionFrames scenarioCSession (104/10)).frameQueue =
       scenarioCSession.frameQueue) :=
  ⟨pump_single_frame_characterization, scenarioC_check⟩

/-- C3 witness: the emission characterization applied at the Scenario C
numbers (frame time 0.5, `playAt = 10.5`, last emission rewound to
`10 - 1/30`, tick at `10.6`). -/
theorem head_emitted_witness :
    (pumpSessionFrames
      { createSession with
        currentValues := []
        frameQueue := [⟨1/2, [("jawOpen", 1)], some (21/2)⟩]
        lastEmitAudioTime := some (299/30) } (53/5)).currentValues =
      [("jawOpen", 1)] ∧
    (pumpSessionFrames
      { createSession with
        currentValues := []
        frameQueue := [⟨1/2, [("jawOpen", 1)], some (21/2)⟩]
        lastEmitAudioTime := some (299/30) } (53/5)).lastEmitAudioTime =
      some (53/5) :=
  (head_emitted_exactly_when.1 (1/2) (21/2) (299/30) (53/5) [("jawOpen", 1)] []).2
    ⟨by norm_num [FRAME_EARLY_TOLERANCE_SEC],
     by norm_num [FRAME_LATE_DROP_SEC],
     by norm_num [FRAME_MIN_SPACING_SEC, DEFAULT_FRAME_DELTA_SEC]⟩

/-- C4: a queued frame whose playback time the clock has passed by more than
`0.1 s` is removed without being emitted (the current weights are untouched
by it), the session's late-drop counter increments by exactly one per such
frame, and the pump simply continues - no error; concretely, with the anchor
at `audio0 = 0` and a frame at `playAt = 0`, a tick at `t = 0.3` drops the
frame and takes the counter from 0 to 1. -/
theorem late_head_dropped :
    (∀ (s : Session) (f : QFrame) (rest : List QFrame) (p t : ℚ),
      s.frameQueue = f :: rest → f.playAt = some p →
      FRAME_LATE_DROP_SEC < t - p →
      pumpSessionFrames s t =
        pumpLoop {s with lateDropsTotal := s.lateDropsTotal + 1} t rest) ∧
    ((pumpSessionFrames scenarioDSession (3/10)).frameQueue = [] ∧
     (pumpSessionFrames scenarioDSession (3/10)).currentValues =
       scenarioDSession.currentValues ∧
     scenarioDSession.lateDropsTotal = 0 ∧
     (pumpSessionFrames scenarioDSession (3/10)).lateDropsTotal = 1) :=
  ⟨pump_drops_late_head, scenarioD_check⟩

/-- C4 witness: the late-drop step applied to a concrete one-frame session at
`playAt = 0` and `t = 0.3`. -/
theorem late_head_dropped_witness :
    pumpSessionFrames
      { createSession with frameQueue := [⟨0, [], some 0⟩] } (3/10) =
    pumpLoop
      { { createSession with frameQueue := [⟨0, [], some 0⟩] } with
        lateDropsTotal :=
          ({ createSession with frameQueue := [⟨0, [], some 0⟩] } : Session).lateDropsTotal + 1 }
      (3/10) [] :=
  late_head_dropped.1 _ ⟨0, [], some 0⟩ [] 0 (3/10) rfl rfl
    (by norm_num [FRAME_LATE_DROP_SEC])

/-- C6 witness: the coverage formula applied to a single-frame first batch:
the watermark advances by at least one frame step. -/
theorem framesCoveredSec_advance_witness :
    createSession.framesCoveredSec + DEFAULT_FRAME_DELTA_SEC ≤
      ((applyBlendshapeFrames createSession (some [⟨some 0, []⟩])
        false none).1).framesCoveredSec :=
  (framesCoveredSec_advance createSession ⟨some 0, []⟩ [] false none).2.2 rfl

/-- C7 witness: append-mode preservation applied to a session with one prior
frame and a strictly positive current-weight map. -/
theorem append_preserves_witness :
    ((applyBlendshapeFrames
      { createSession with
        frames := some [⟨0, 0, []⟩]
        currentValues := [("jawOpen", 1/2)] } (some []) true none).1).currentValues =
    ({ createSession with
       frames := some [⟨0, 0, []⟩]
       currentValues := [("jawOpen", 1/2)] } : Session).currentValues :=
  apply_append_preserves_currentValues _ ⟨0, 0, []⟩ [] (some []) none rfl
    (by
      intro kv hkv
      simp only [List.mem_singleton] at hkv
      subst hkv
      norm_num)
